import Mathlib

/-!
# Validator attestation history (`validator/db/kv/attestation_history_v2.go`)

A shallow embedding of the encapsulated attestation history of the validator
database: a byte buffer holding an 8-byte header (latest epoch written) followed
by fixed-size entries indexed by `target % WeakSubjectivityPeriod`.

Conventions of the embedding.

* A Go `[]byte` is a `List Byte` holding the visible contents of the slice; the
  `nil` slice is the empty list (both have length 0, which is all the code asks).
* A `uint64` is a `Nat`; every `uint64` operation of the source that can wrap is
  written with `u64`, reduction modulo `2 ^ 64`.
* A `(value, error)` result is an `Except Error value`.
* `params.BeaconConfig()` is not part of the sources at hand; the two fields the
  code reads are the fields of the parameter `BeaconConfig`.
* A `bolt` bucket is the list of its key/value pairs, a Go map the list of its
  entries in the order a `range` loop visits them; the store functions take the
  store and return the store after the transaction.

The same file holds the high-water marks and the migration of the legacy history
of that package, and the export loop of `standard-protection-format/export.go`.
-/

namespace Kv

/-- One byte. -/
abbrev Byte := Fin 256

/-- Reduction of a natural number to the range of a Go `uint64`. -/
def u64 (x : Nat) : Nat := x % 2 ^ 64

/-! ## Constants -/

def uint64Size : Nat := 8
def latestEpochWrittenSize : Nat := uint64Size
def targetSize : Nat := uint64Size
def sourceSize : Nat := uint64Size
def signingRootSize : Nat := 32
def historySize : Nat := targetSize + sourceSize + signingRootSize
def minimalSize : Nat := latestEpochWrittenSize

/-- The two fields of `params.BeaconConfig()` read by the history code. -/
structure BeaconConfig where
  WeakSubjectivityPeriod : Nat
  FarFutureEpoch : Nat
deriving DecidableEq, Repr

/-- The configurations under which the code runs without a run-time panic: the
period is not zero (`target % 0` panics), the byte offset of the last slot fits a
`uint64`, and `FarFutureEpoch` is a `uint64`. -/
def BeaconConfig.valid (cfg : BeaconConfig) : Prop :=
  0 < cfg.WeakSubjectivityPeriod ∧
  latestEpochWrittenSize + cfg.WeakSubjectivityPeriod * historySize < 2 ^ 64 ∧
  cfg.FarFutureEpoch < 2 ^ 64

instance (cfg : BeaconConfig) : Decidable cfg.valid := by
  unfold BeaconConfig.valid; exact inferInstance

/-- `HistoryData` of the source: a source epoch and a signing root. A `nil`
signing root is the empty list. -/
structure HistoryData where
  Source : Nat
  SigningRoot : List Byte
deriving DecidableEq, Repr

/-- `EncHistoryData` of the source: the encapsulated history bytes. -/
abbrev EncHistoryData := List Byte

/-- The errors the history code returns: the two of `assertSize`, and
`errors.Wrap` around a cause. -/
inductive Error where
  | sizeTooSmall (len : Nat)
  | sizeNotMultiple (len : Nat)
  | wrap (msg : String) (cause : Error)
deriving DecidableEq, Repr

instance instDecidableEqExcept {ε α : Type} [DecidableEq ε] [DecidableEq α] :
    DecidableEq (Except ε α)
  | .ok a, .ok b =>
    if h : a = b then isTrue (by rw [h]) else isFalse (fun h' => h (Except.ok.inj h'))
  | .error a, .error b =>
    if h : a = b then isTrue (by rw [h]) else isFalse (fun h' => h (Except.error.inj h'))
  | .ok _, .error _ => isFalse (fun h => by cases h)
  | .error _, .ok _ => isFalse (fun h => by cases h)

/-! ## Slices and `bytesutil` -/

/-- The Go slice expression `hd[a:b]`. -/
def slice (hd : List Byte) (a b : Nat) : List Byte := (hd.drop a).take (b - a)

/-- The contents of `dst` after the Go builtin `copy(dst, src)`: the first
`min (len dst) (len src)` bytes come from `src`, the rest of `dst` stays. -/
def copy (dst src : List Byte) : List Byte :=
  src.take dst.length ++ dst.drop src.length

/-- The contents of `hd` once the bytes of `hd[a:b]` have become `s`. -/
def setSlice (hd : List Byte) (a b : Nat) (s : List Byte) : List Byte :=
  hd.take a ++ s ++ hd.drop b

/-- Little-endian value of a byte string. -/
def fromLE : List Byte → Nat
  | [] => 0
  | b :: bs => b.val + 256 * fromLE bs

/-- The `n` low bytes of `x`, least significant first. -/
def toLE : Nat → Nat → List Byte
  | 0, _ => []
  | n + 1, x => ⟨x % 256, Nat.mod_lt x (by decide)⟩ :: toLE n (x / 256)

/-- Modelled from the spec: `bytesutil.FromBytes8` is not among the sources;
the spec gives the header and the source epoch as "8-byte little-endian". -/
def FromBytes8 (x : List Byte) : Nat := fromLE (x.take 8)

/-- Modelled from the spec: `bytesutil.Uint64ToBytesLittleEndian` is not among
the sources; the spec gives the header and the source epoch as "8-byte
little-endian". -/
def Uint64ToBytesLittleEndian (x : Nat) : List Byte := toLE 8 x

/-- Modelled from the spec: `bytesutil.PadTo` is not among the sources; the spec
gives the root of the empty sentinel as "32 zero bytes", the padding of the
empty byte string to 32 bytes. -/
def PadTo (b : List Byte) (size : Nat) : List Byte :=
  if size < b.length then b else b ++ List.replicate (size - b.length) 0

/-! ## The history codec -/

/-- `EncHistoryData.assertSize`. -/
def assertSize (hd : EncHistoryData) : Except Error Unit :=
  if hd.length < minimalSize then
    .error (.sizeTooSmall hd.length)
  else if (hd.length - minimalSize) % historySize ≠ 0 then
    .error (.sizeNotMultiple hd.length)
  else
    .ok ()

/-- `HistoryData.IsEmpty`; the receiver is a pointer, `none` is `nil`. -/
def IsEmpty (cfg : BeaconConfig) : Option HistoryData → Bool
  | none => true
  | some h => if h.Source = cfg.FarFutureEpoch then true else false

/-- `emptyHistoryData`. -/
def emptyHistoryData (cfg : BeaconConfig) : HistoryData :=
  { Source := cfg.FarFutureEpoch, SigningRoot := PadTo [] 32 }

/-- `EncHistoryData.GetLatestEpochWritten`. -/
def GetLatestEpochWritten (hd : EncHistoryData) : Except Error Nat :=
  match assertSize hd with
  | .error e => .error e
  | .ok _ => .ok (FromBytes8 (slice hd 0 latestEpochWrittenSize))

/-- `EncHistoryData.SetLatestEpochWritten`. -/
def SetLatestEpochWritten (hd : EncHistoryData) (latestEpochWritten : Nat) :
    Except Error EncHistoryData :=
  match assertSize hd with
  | .error e => .error e
  | .ok _ =>
    .ok (setSlice hd 0 latestEpochWrittenSize
      (copy (slice hd 0 latestEpochWrittenSize) (Uint64ToBytesLittleEndian latestEpochWritten)))

/-- `EncHistoryData.GetTargetData`; `ok none` is the return `nil, nil`. -/
def GetTargetData (cfg : BeaconConfig) (hd : EncHistoryData) (target : Nat) :
    Except Error (Option HistoryData) :=
  match assertSize hd with
  | .error e => .error e
  | .ok _ =>
    let cursor := u64 (u64 ((target % cfg.WeakSubjectivityPeriod) * historySize)
      + latestEpochWrittenSize)
    if hd.length < u64 (cursor + historySize) then
      .ok none
    else
      let sr := copy (List.replicate 32 0)
        (slice hd (u64 (cursor + sourceSize)) (u64 (cursor + historySize)))
      .ok (some { Source := FromBytes8 (slice hd cursor (u64 (cursor + sourceSize))),
                  SigningRoot := sr })

/-- `EncHistoryData.SetTargetData`. -/
def SetTargetData (cfg : BeaconConfig) (hd : EncHistoryData) (target : Nat)
    (historyData : HistoryData) : Except Error EncHistoryData :=
  match assertSize hd with
  | .error e => .error e
  | .ok _ =>
    let cursor := u64 (latestEpochWrittenSize
      + u64 ((target % cfg.WeakSubjectivityPeriod) * historySize))
    let hd1 :=
      if hd.length < u64 (cursor + historySize) then
        hd ++ List.replicate (u64 (cursor + historySize) - hd.length) 0
      else hd
    let hd2 := setSlice hd1 cursor (u64 (cursor + sourceSize))
      (copy (slice hd1 cursor (u64 (cursor + sourceSize)))
        (Uint64ToBytesLittleEndian historyData.Source))
    let hd3 := setSlice hd2 (u64 (cursor + sourceSize))
      (u64 (cursor + sourceSize + signingRootSize))
      (copy (slice hd2 (u64 (cursor + sourceSize)) (u64 (cursor + sourceSize + signingRootSize)))
        historyData.SigningRoot)
    .ok hd3

/-- The loop of `NewAttestationHistoryArray`,
`for i := 0; i <= target % WeakSubjectivityPeriod; i++`, with `fuel` bounding the
iterations left. An error of `SetTargetData` is logged and the loop goes on
with the `nil` buffer the call returned. -/
def newLoop (cfg : BeaconConfig) (target : Nat) : Nat → Nat → EncHistoryData → EncHistoryData
  | 0, _, enc => enc
  | fuel + 1, i, enc =>
    if i ≤ target % cfg.WeakSubjectivityPeriod then
      match SetTargetData cfg enc i (emptyHistoryData cfg) with
      | .error _ => newLoop cfg target fuel (i + 1) []
      | .ok enc1 => newLoop cfg target fuel (i + 1) enc1
    else enc

/-- `NewAttestationHistoryArray`. The loop runs for `i = 0, ..., target % period`,
that is `target % period + 1` times. -/
def NewAttestationHistoryArray (cfg : BeaconConfig) (target : Nat) : EncHistoryData :=
  let relativeTarget := target % cfg.WeakSubjectivityPeriod
  let historyDataSize := u64 ((relativeTarget + 1) * historySize)
  let arraySize := u64 (latestEpochWrittenSize + historyDataSize)
  newLoop cfg target (relativeTarget + 1) 0 (List.replicate arraySize 0)

/-- The clearing loop of `MarkAllAsAttestedSinceLatestWrittenEpoch`,
`for i := latestEpochWritten + 1; i < incomingTarget && i <= maxToWrite; i++`,
with `fuel` bounding the iterations left.

Every iteration calls `SetTargetData` on `hist`, not on `currentHD`. Go slices
share their backing array: a write that falls inside `len(hist)` is made in
place and the next iteration sees it through `hist`; a write that needs the
buffer to grow goes to the slice `append` returns, and `hist` keeps its length
and its visible contents. Either way `hist` afterwards holds the first
`len(hist)` bytes of the returned slice. -/
def clearLoop (cfg : BeaconConfig) (incomingTarget maxToWrite : Nat) :
    Nat → Nat → EncHistoryData → EncHistoryData → Except Error EncHistoryData
  | 0, _, _, currentHD => .ok currentHD
  | fuel + 1, i, hist, currentHD =>
    if i < incomingTarget ∧ i ≤ maxToWrite then
      match SetTargetData cfg hist (i % cfg.WeakSubjectivityPeriod)
          { Source := cfg.FarFutureEpoch, SigningRoot := [] } with
      | .error e => .error (.wrap "could not set target data" e)
      | .ok newHD =>
        clearLoop cfg incomingTarget maxToWrite fuel (i + 1) (newHD.take hist.length) newHD
    else .ok currentHD

/-- `MarkAllAsAttestedSinceLatestWrittenEpoch`. The clearing loop starts at
`latestEpochWritten + 1` and stops at `incomingTarget` at the latest, so
`incomingTarget - latestEpochWritten` iterations of fuel are never used up. -/
def MarkAllAsAttestedSinceLatestWrittenEpoch (cfg : BeaconConfig) (hist : EncHistoryData)
    (incomingTarget : Nat) (incomingAtt : HistoryData) : Except Error EncHistoryData :=
  let wsPeriod := cfg.WeakSubjectivityPeriod
  match GetLatestEpochWritten hist with
  | .error e => .error (.wrap "could not get latest epoch written from history" e)
  | .ok latestEpochWritten =>
    let afterForward : Except Error EncHistoryData :=
      if latestEpochWritten < incomingTarget then
        let maxToWrite := u64 (latestEpochWritten + wsPeriod)
        match clearLoop cfg incomingTarget maxToWrite (incomingTarget - latestEpochWritten)
            (latestEpochWritten + 1) hist hist with
        | .error e => .error e
        | .ok currentHD =>
          match SetLatestEpochWritten currentHD incomingTarget with
          | .error e => .error (.wrap "could not set latest epoch written" e)
          | .ok newHD => .ok newHD
      else .ok hist
    match afterForward with
    | .error e => .error e
    | .ok currentHD =>
      match SetTargetData cfg currentHD (incomingTarget % wsPeriod)
          { Source := incomingAtt.Source, SigningRoot := incomingAtt.SigningRoot } with
      | .error e => .error (.wrap "could not set target data" e)
      | .ok newHD => .ok newHD

/-! ## Vocabulary of the statements -/

/-- A well-formed encoded history, in the words of the specification: at least
the 8-byte header, and a whole number of entries after it. -/
def WellFormed (hd : EncHistoryData) : Prop :=
  minimalSize ≤ hd.length ∧ (hd.length - minimalSize) % historySize = 0

instance (hd : EncHistoryData) : Decidable (WellFormed hd) := by
  unfold WellFormed; exact inferInstance

/-- Byte offset of the slot of `target`: the header, then one entry per epoch of
the period before `target % WeakSubjectivityPeriod`. -/
def slotOffset (cfg : BeaconConfig) (target : Nat) : Nat :=
  latestEpochWrittenSize + (target % cfg.WeakSubjectivityPeriod) * historySize

/-- The buffer `hd`, zero-extended to length `n` when it is shorter. -/
def growTo (hd : List Byte) (n : Nat) : List Byte :=
  if hd.length < n then hd ++ List.replicate (n - hd.length) 0 else hd

/-- The buffer `hd` after `copy(hd[a:b], src)`. -/
def writeAt (hd : List Byte) (a b : Nat) (src : List Byte) : List Byte :=
  setSlice hd a b (copy (slice hd a b) src)

/-- The buffer `SetTargetData` returns for the slot at byte offset `o`. -/
def putEntry (hd : List Byte) (o : Nat) (d : HistoryData) : List Byte :=
  writeAt (writeAt (growTo hd (o + historySize)) o (o + sourceSize)
      (Uint64ToBytesLittleEndian d.Source))
    (o + sourceSize) (o + sourceSize + signingRootSize) d.SigningRoot

/-- The entry `GetTargetData` decodes from the slot at byte offset `o`. -/
def entryAt (hd : List Byte) (o : Nat) : HistoryData :=
  { Source := FromBytes8 (slice hd o (o + sourceSize)),
    SigningRoot := slice hd (o + sourceSize) (o + sourceSize + signingRootSize) }

/-! ## The store -/

/-- A `bolt` bucket: its key/value pairs, one pair per key. The order of the
pairs plays no part in `Get`. -/
abbrev Bucket := List (List Byte × List Byte)

/-- The method `Get` of a `bolt` bucket; `none` is the `nil` it returns for a key
without a record. -/
def Bucket.Get : Bucket → List Byte → Option (List Byte)
  | [], _ => none
  | (k, v) :: rest, key => if k = key then some v else Bucket.Get rest key

/-- The method `Put` of a `bolt` bucket, inside a writable transaction: the
record of `key` is replaced, or added when there is none. -/
def Bucket.Put : Bucket → List Byte → List Byte → Bucket
  | [], key, value => [(key, value)]
  | (k, v) :: rest, key, value =>
    if k = key then (key, value) :: rest else (k, v) :: Bucket.Put rest key value

/-- The field `KeyN` of the statistics of a `bolt` bucket: the number of keys. -/
def Bucket.KeyN (b : Bucket) : Nat := b.length

/-- The buckets of the validator database the code below opens.
`tx.Bucket(historicAttestationsBucket)` is compared with `nil` by the code, so
the legacy bucket is optional; the other three are created with the store. -/
structure Store where
  historicAttestationsBucket : Option Bucket
  newHistoricAttestationsBucket : Bucket
  highestSignedSourceBucket : Bucket
  highestSignedTargetBucket : Bucket
deriving DecidableEq

/-- The errors of the store functions. A failure of the storage transaction
itself (`store.view`, `store.update`) is outside the embedding. -/
inductive DbError where
  | codec (msg : String) (cause : Error)
  | collaborator (msg : String)
  | nilBucket
  | wrap (msg : String) (cause : DbError)
deriving DecidableEq, Repr

/-- Modelled from the spec: `bytesutil.BytesToUint64BigEndian` is not among the
sources; the high-water mark is a `u64` that reads `0` if absent, and the
comment at the call says the function returns 0 for fewer than 8 bytes. -/
def BytesToUint64BigEndian (b : List Byte) : Nat :=
  if b.length < 8 then 0 else fromLE (b.take 8).reverse

/-- Modelled from the spec: `bytesutil.Uint64ToBytesBigEndian` is not among the
sources; the 8 bytes of a `u64`, most significant first. -/
def Uint64ToBytesBigEndian (x : Nat) : List Byte := (toLE 8 x).reverse

/-- `Store.HighestSignedSourceEpoch`; `publicKey` is the slice `publicKey[:]`. -/
def HighestSignedSourceEpoch (store : Store) (publicKey : List Byte) : Nat :=
  let highestSignedSourceBytes :=
    (Bucket.Get store.highestSignedSourceBucket publicKey).getD []
  if highestSignedSourceBytes.length < 8 then 0
  else BytesToUint64BigEndian highestSignedSourceBytes

/-- `Store.HighestSignedTargetEpoch`. -/
def HighestSignedTargetEpoch (store : Store) (publicKey : List Byte) : Nat :=
  let highestSignedTargetBytes :=
    (Bucket.Get store.highestSignedTargetBucket publicKey).getD []
  if highestSignedTargetBytes.length < 8 then 0
  else BytesToUint64BigEndian highestSignedTargetBytes

/-- `Store.SaveHighestSignedSourceEpoch`: the store after the update. -/
def SaveHighestSignedSourceEpoch (store : Store) (publicKey : List Byte) (epoch : Nat) :
    Store :=
  let bucket := store.highestSignedSourceBucket
  let highestSignedSourceBytes := (Bucket.Get bucket publicKey).getD []
  let highestSignedSourceEpoch :=
    if 8 ≤ highestSignedSourceBytes.length then BytesToUint64BigEndian highestSignedSourceBytes
    else 0
  if highestSignedSourceBytes.length = 0 ∨ highestSignedSourceEpoch < epoch then
    { store with
      highestSignedSourceBucket := Bucket.Put bucket publicKey (Uint64ToBytesBigEndian epoch) }
  else store

/-- `Store.SaveHighestSignedTargetEpoch`: the store after the update. -/
def SaveHighestSignedTargetEpoch (store : Store) (publicKey : List Byte) (epoch : Nat) :
    Store :=
  let bucket := store.highestSignedTargetBucket
  let highestSignedTargetBytes := (Bucket.Get bucket publicKey).getD []
  let highestSignedTargetEpoch :=
    if 8 ≤ highestSignedTargetBytes.length then BytesToUint64BigEndian highestSignedTargetBytes
    else 0
  if highestSignedTargetBytes.length = 0 ∨ highestSignedTargetEpoch < epoch then
    { store with
      highestSignedTargetBucket := Bucket.Put bucket publicKey (Uint64ToBytesBigEndian epoch) }
  else store

/-! ## Migration of the legacy attestation history -/

/-- The legacy record of one validator, `slashpb.AttestationHistory`: a Go map
from target epoch to source epoch, listed in the order the `range` loop visits
it, and the latest epoch written. -/
structure AttestationHistory where
  TargetToSource : List (Nat × Nat)
  LatestEpochWritten : Nat
deriving DecidableEq, Repr

/-- What the migration uses and the sources at hand do not hold: the key of the
exported marker, `removeDuplicateKeys`, and the legacy reader
`Store.AttestationHistoryForPubKeys`, whose result is a Go map from public key to
legacy record, listed in the order the `range` loop visits it. -/
structure Collaborators where
  attestationExported : List Byte
  removeDuplicateKeys : List (List Byte) → List (List Byte)
  AttestationHistoryForPubKeys :
    Store → List (List Byte) → Except DbError (List (List Byte × AttestationHistory))

/-- `Store.SaveAttestationHistoryForPubKeysV2`: one `Put` per entry of the map. -/
def SaveAttestationHistoryForPubKeysV2 (store : Store) (historyByPubKeys : Bucket) : Store :=
  { store with
    newHistoricAttestationsBucket :=
      historyByPubKeys.foldl (fun bucket kv => Bucket.Put bucket kv.1 kv.2)
        store.newHistoricAttestationsBucket }

/-- The inner loop of `MigrateV2AttestationProtection`,
`for target, source := range atts.TargetToSource`. -/
def replayLoop (cfg : BeaconConfig) :
    List (Nat × Nat) → EncHistoryData → Except DbError EncHistoryData
  | [], hd => .ok hd
  | (target, source) :: rest, hd =>
    match SetTargetData cfg hd target { Source := source, SigningRoot := [1] } with
    | .error e =>
      .error (.codec "failed to set target data while migrating attestations to v2" e)
    | .ok hd1 => replayLoop cfg rest hd1

/-- The outer loop of `MigrateV2AttestationProtection`,
`for key, atts := range attMap`, filling the Go map `dataMap`. -/
def migrateLoop (cfg : BeaconConfig) :
    List (List Byte × AttestationHistory) → Bucket → Except DbError Bucket
  | [], dataMap => .ok dataMap
  | (key, atts) :: rest, dataMap =>
    match SetLatestEpochWritten (NewAttestationHistoryArray cfg atts.LatestEpochWritten)
        atts.LatestEpochWritten with
    | .error e =>
      .error (.codec "failed to set latest epoch while migrating attestations to v2" e)
    | .ok hd =>
      match replayLoop cfg atts.TargetToSource hd with
      | .error e => .error e
      | .ok hd1 => migrateLoop cfg rest (Bucket.Put dataMap key hd1)

/-- `Store.MigrateV2AttestationProtection`. Every key of the legacy bucket is
copied into a `[48]byte`. Where the legacy bucket is `nil` the Go code stops on
a nil pointer; the model reports `nilBucket`. -/
def MigrateV2AttestationProtection (cfg : BeaconConfig) (env : Collaborators) (store : Store) :
    Except DbError Store :=
  match store.historicAttestationsBucket with
  | none => .error .nilBucket
  | some attestationsBucket =>
    let allKeys := attestationsBucket.map (fun kv => copy (List.replicate 48 0) kv.1)
    let allKeys1 := env.removeDuplicateKeys allKeys
    match env.AttestationHistoryForPubKeys store allKeys1 with
    | .error e => .error (.wrap "could not retrieve data for public keys" e)
    | .ok attMap =>
      match migrateLoop cfg attMap [] with
      | .error e => .error e
      | .ok dataMap => .ok (SaveAttestationHistoryForPubKeysV2 store dataMap)

/-- `Store.shouldMigrateAttestations`. -/
def shouldMigrateAttestations (env : Collaborators) (store : Store) : Bool :=
  match store.historicAttestationsBucket with
  | none => false
  | some attestationBucket =>
    if Bucket.KeyN attestationBucket ≠ 0 then
      match Bucket.Get attestationBucket env.attestationExported with
      | none => true
      | some _ => false
    else false

/-- `Store.MigrateV2AttestationProtectionDb`. -/
def MigrateV2AttestationProtectionDb (cfg : BeaconConfig) (env : Collaborators)
    (store : Store) : Except DbError Store :=
  let importAttestations := shouldMigrateAttestations env store
  if importAttestations = false then .ok store
  else
    match MigrateV2AttestationProtection cfg env store with
    | .error e => .error (.wrap "filed to import attestations" e)
    | .ok store1 =>
      match store1.historicAttestationsBucket with
      | none => .ok store1
      | some bucket =>
        .ok { store1 with
              historicAttestationsBucket := some (Bucket.Put bucket env.attestationExported [1]) }

end Kv

/-! # Export of the signed blocks
(`validator/slashing-protection/local/standard-protection-format/export.go`) -/

namespace Interchangeformat

open Kv

/-- `SignedBlock` of the interchange format. -/
structure SignedBlock where
  Slot : String
  SigningRoot : String
deriving DecidableEq, Repr

/-- The errors of the export: one of the validator database, or the length
error of `rootToHex`. -/
inductive ExportError where
  | db (msg : String)
  | wantedLength (wanted received : Nat)
deriving DecidableEq, Repr

/-- The three methods of the interface `db.Database` that
`getSignedBlocksByPubKey` calls. -/
structure Database where
  LowestSignedProposal : List Byte → Except ExportError Nat
  HighestSignedProposal : List Byte → Except ExportError Nat
  ProposalHistoryForSlot : List Byte → Nat → Except ExportError (List Byte)

/-- One lower-case hexadecimal digit. -/
def hexDigit (n : Nat) : Char :=
  if n < 10 then Char.ofNat (48 + n) else Char.ofNat (87 + n)

/-- The digits `fmt.Sprintf("%x", bytes)` prints: two per byte. -/
def hexOf (bytes : List Byte) : String :=
  String.mk (bytes.flatMap fun b => [hexDigit (b.val / 16), hexDigit (b.val % 16)])

/-- `rootToHex`; the verb `%#x` prints `0x` before the digits. -/
def rootToHex (root : List Byte) : Except ExportError String :=
  if root.length ≠ 32 then .error (.wantedLength 32 root.length)
  else .ok ("0x" ++ hexOf root)

/-- The loop of `getSignedBlocksByPubKey`,
`for i := lowestSignedSlot; i < highestSignedSlot; i++`, with `fuel` bounding the
iterations left. -/
def signedBlocksLoop (validatorDB : Database) (pubKey : List Byte) (highestSignedSlot : Nat) :
    Nat → Nat → List SignedBlock → Except ExportError (List SignedBlock)
  | 0, _, signedBlocks => .ok signedBlocks
  | fuel + 1, i, signedBlocks =>
    if i < highestSignedSlot then
      match validatorDB.ProposalHistoryForSlot pubKey i with
      | .error e => .error e
      | .ok signingRoot =>
        match rootToHex signingRoot with
        | .error e => .error e
        | .ok signingRootHex =>
          signedBlocksLoop validatorDB pubKey highestSignedSlot fuel (i + 1)
            (signedBlocks ++ [{ Slot := toString i, SigningRoot := signingRootHex }])
    else .ok signedBlocks

/-- `getSignedBlocksByPubKey`. The loop starts at the lowest slot and stops at the
highest, so `highestSignedSlot - lowestSignedSlot` iterations of fuel are never
used up. -/
def getSignedBlocksByPubKey (validatorDB : Database) (pubKey : List Byte) :
    Except ExportError (List SignedBlock) :=
  match validatorDB.LowestSignedProposal pubKey with
  | .error e => .error e
  | .ok lowestSignedSlot =>
    match validatorDB.HighestSignedProposal pubKey with
    | .error e => .error e
    | .ok highestSignedSlot =>
      signedBlocksLoop validatorDB pubKey highestSignedSlot
        (highestSignedSlot - lowestSignedSlot) lowestSignedSlot []

end Interchangeformat

namespace Kv

/-- The high-water mark the bucket `b` holds for `publicKey`, as
`HighestSignedSourceEpoch` and `HighestSignedTargetEpoch` read it. -/
def markOf (b : Bucket) (publicKey : List Byte) : Nat :=
  if ((Bucket.Get b publicKey).getD []).length < 8 then 0
  else BytesToUint64BigEndian ((Bucket.Get b publicKey).getD [])

/-- The bucket `b` after a save of `epoch` for `publicKey`, as
`SaveHighestSignedSourceEpoch` and `SaveHighestSignedTargetEpoch` update it. -/
def saveMark (b : Bucket) (publicKey : List Byte) (epoch : Nat) : Bucket :=
  if ((Bucket.Get b publicKey).getD []).length = 0 ∨
      (if 8 ≤ ((Bucket.Get b publicKey).getD []).length
        then BytesToUint64BigEndian ((Bucket.Get b publicKey).getD []) else 0) < epoch
  then Bucket.Put b publicKey (Uint64ToBytesBigEndian epoch) else b

/-- The buffer the inner loop of the migration builds from `hd`, every
`SetTargetData` having succeeded. -/
def replayPure (cfg : BeaconConfig) (m : List (Nat × Nat)) (hd : EncHistoryData) :
    EncHistoryData :=
  m.foldl (fun h p => putEntry h (slotOffset cfg p.1) { Source := p.2, SigningRoot := [1] }) hd

/-- The history the migration builds for one legacy record. -/
def migratedHistory (cfg : BeaconConfig) (atts : AttestationHistory) : EncHistoryData :=
  replayPure cfg atts.TargetToSource
    (writeAt (NewAttestationHistoryArray cfg atts.LatestEpochWritten) 0 8
      (Uint64ToBytesLittleEndian atts.LatestEpochWritten))

/-- The bucket `b` after one `Put` per pair of `l`, in order. -/
def putAll (b : Bucket) (l : Bucket) : Bucket :=
  l.foldl (fun bucket kv => Bucket.Put bucket kv.1 kv.2) b

/-! ## Constants, evaluated -/

theorem historySize_eq : historySize = 48 := rfl
theorem minimalSize_eq : minimalSize = 8 := rfl
theorem latestEpochWrittenSize_eq : latestEpochWrittenSize = 8 := rfl
theorem sourceSize_eq : sourceSize = 8 := rfl
theorem signingRootSize_eq : signingRootSize = 32 := rfl

theorem u64_of_lt {x : Nat} (h : x < 2 ^ 64) : u64 x = x := Nat.mod_eq_of_lt h

/-! ## Little-endian bytes -/

theorem toLE_length (n x : Nat) : (toLE n x).length = n := by
  induction n generalizing x with
  | zero => rfl
  | succ n ih => simp [toLE, ih]

theorem fromLE_toLE (n x : Nat) : fromLE (toLE n x) = x % 256 ^ n := by
  induction n generalizing x with
  | zero => simp [toLE, fromLE, Nat.mod_one]
  | succ n ih =>
    simp only [toLE, fromLE, ih]
    rw [pow_succ, Nat.mul_comm (256 ^ n) 256, Nat.mod_mul]

theorem fromLE_lt (l : List Byte) : fromLE l < 256 ^ l.length := by
  induction l with
  | nil => simp [fromLE]
  | cons b bs ih =>
    simp only [fromLE, List.length_cons, pow_succ]
    have := b.isLt
    omega

theorem FromBytes8_lt (x : List Byte) : FromBytes8 x < 2 ^ 64 := by
  unfold FromBytes8
  have h := fromLE_lt (x.take 8)
  have h2 : (x.take 8).length ≤ 8 := by simp
  calc fromLE (x.take 8) < 256 ^ (x.take 8).length := h
    _ ≤ 256 ^ 8 := Nat.pow_le_pow_right (by decide) h2
    _ = 2 ^ 64 := by norm_num

theorem FromBytes8_Uint64ToBytesLittleEndian {x : Nat} (h : x < 2 ^ 64) :
    FromBytes8 (Uint64ToBytesLittleEndian x) = x := by
  unfold FromBytes8 Uint64ToBytesLittleEndian
  rw [List.take_of_length_le (by simp [toLE_length]), fromLE_toLE]
  exact Nat.mod_eq_of_lt (by norm_num at h ⊢; exact h)

/-! ## Slices, pointwise -/

theorem slice_length (hd : List Byte) (a b : Nat) :
    (slice hd a b).length = min (b - a) (hd.length - a) := by
  simp [slice]

theorem getElem?_slice (hd : List Byte) (a b i : Nat) :
    (slice hd a b)[i]? = if i < b - a then hd[a + i]? else none := by
  unfold slice
  rw [List.getElem?_take]
  split
  · rw [List.getElem?_drop]
  · rfl

theorem copy_length (dst src : List Byte) : (copy dst src).length = dst.length := by
  simp [copy]; omega

theorem getElem?_copy (dst src : List Byte) (i : Nat) :
    (copy dst src)[i]? = if i < min dst.length src.length then src[i]? else dst[i]? := by
  unfold copy
  rw [List.getElem?_append]
  simp only [List.length_take, List.getElem?_take, List.getElem?_drop]
  by_cases h1 : i < min dst.length src.length
  · have : i < dst.length := by omega
    simp [h1, this]
  · simp only [h1, if_false]
    by_cases h2 : src.length ≤ dst.length
    · have e : min dst.length src.length = src.length := by omega
      rw [e] at h1 ⊢
      have : src.length + (i - src.length) = i := by omega
      rw [this]
    · have e : min dst.length src.length = dst.length := by omega
      rw [e] at h1 ⊢
      rw [List.getElem?_eq_none (by omega), List.getElem?_eq_none (by omega)]

theorem setSlice_length (hd : List Byte) (a b : Nat) (s : List Byte)
    (hab : a ≤ b) (hb : b ≤ hd.length) (hs : s.length = b - a) :
    (setSlice hd a b s).length = hd.length := by
  simp [setSlice]; omega

theorem getElem?_setSlice (hd : List Byte) (a b : Nat) (s : List Byte)
    (hab : a ≤ b) (hb : b ≤ hd.length) (hs : s.length = b - a) (i : Nat) :
    (setSlice hd a b s)[i]? = if a ≤ i ∧ i < b then s[i - a]? else hd[i]? := by
  unfold setSlice
  have hta : (hd.take a).length = a := by simp; omega
  by_cases h1 : i < a
  · rw [List.append_assoc, List.getElem?_append_left (by omega),
      List.getElem?_take_of_lt h1, if_neg (by omega)]
  · by_cases h2 : i < b
    · rw [List.append_assoc, List.getElem?_append_right (by omega),
        List.getElem?_append_left (by omega), hta, if_pos (by omega)]
    · rw [List.getElem?_append_right (by simp; omega), List.getElem?_drop, if_neg (by omega)]
      congr 1
      simp; omega

theorem slice_congr {l l' : List Byte} {a b : Nat}
    (h : ∀ i, a ≤ i → i < b → l[i]? = l'[i]?) : slice l a b = slice l' a b := by
  apply List.ext_getElem?
  intro i
  rw [getElem?_slice, getElem?_slice]
  split
  · exact h _ (by omega) (by omega)
  · rfl

/-! ## Growing and writing, pointwise -/

theorem growTo_length (hd : List Byte) (n : Nat) : (growTo hd n).length = max hd.length n := by
  unfold growTo
  split
  · simp; omega
  · omega

theorem getElem?_growTo (hd : List Byte) (n i : Nat) :
    (growTo hd n)[i]? = if i < hd.length then hd[i]? else if i < n then some 0 else none := by
  unfold growTo
  by_cases h : hd.length < n
  · rw [if_pos h]
    by_cases h1 : i < hd.length
    · rw [if_pos h1, List.getElem?_append_left h1]
    · rw [if_neg h1, List.getElem?_append_right (by omega)]
      by_cases h2 : i < n
      · rw [if_pos h2, List.getElem?_replicate, if_pos (by omega)]
      · rw [if_neg h2, List.getElem?_replicate, if_neg (by omega)]
  · rw [if_neg h]
    by_cases h1 : i < hd.length
    · rw [if_pos h1]
    · rw [if_neg h1, if_neg (by omega), List.getElem?_eq_none (by omega)]

theorem writeAt_length (hd : List Byte) (a b : Nat) (src : List Byte)
    (hab : a ≤ b) (hb : b ≤ hd.length) : (writeAt hd a b src).length = hd.length := by
  unfold writeAt
  apply setSlice_length _ _ _ _ hab hb
  rw [copy_length, slice_length]; omega

theorem getElem?_writeAt (hd : List Byte) (a b : Nat) (src : List Byte)
    (hab : a ≤ b) (hb : b ≤ hd.length) (i : Nat) :
    (writeAt hd a b src)[i]? =
      if a ≤ i ∧ i < a + min (b - a) src.length then src[i - a]? else hd[i]? := by
  unfold writeAt
  have hl : (slice hd a b).length = b - a := by rw [slice_length]; omega
  rw [getElem?_setSlice _ _ _ _ hab hb (by rw [copy_length, hl])]
  by_cases h1 : a ≤ i ∧ i < b
  · rw [if_pos h1, getElem?_copy, hl]
    by_cases h2 : i - a < min (b - a) src.length
    · rw [if_pos h2, if_pos (by omega)]
    · rw [if_neg h2, if_neg (by omega), getElem?_slice, if_pos (by omega)]
      congr 1; omega
  · rw [if_neg h1, if_neg (by omega)]

theorem putEntry_length (hd : List Byte) (o : Nat) (d : HistoryData) :
    (putEntry hd o d).length = max hd.length (o + 48) := by
  unfold putEntry
  have h0 := growTo_length hd (o + historySize)
  simp only [historySize_eq, sourceSize_eq, signingRootSize_eq] at h0 ⊢
  have h1 : (writeAt (growTo hd (o + 48)) o (o + 8) (Uint64ToBytesLittleEndian d.Source)).length
      = max hd.length (o + 48) := by
    rw [writeAt_length _ _ _ _ (by omega) (by omega), h0]
  rw [writeAt_length _ _ _ _ (by omega) (by omega), h1]

theorem getElem?_putEntry (hd : List Byte) (o : Nat) (d : HistoryData) (i : Nat) :
    (putEntry hd o d)[i]? =
      if o ≤ i ∧ i < o + 8 then (Uint64ToBytesLittleEndian d.Source)[i - o]?
      else if o + 8 ≤ i ∧ i < o + 8 + min 32 d.SigningRoot.length then
        d.SigningRoot[i - (o + 8)]?
      else if i < hd.length then hd[i]?
      else if i < o + 48 then some 0 else none := by
  unfold putEntry
  have h0 := growTo_length hd (o + historySize)
  simp only [historySize_eq, sourceSize_eq, signingRootSize_eq] at h0 ⊢
  have h1 : (writeAt (growTo hd (o + 48)) o (o + 8) (Uint64ToBytesLittleEndian d.Source)).length
      = max hd.length (o + 48) := by
    rw [writeAt_length _ _ _ _ (by omega) (by omega), h0]
  have hle : (Uint64ToBytesLittleEndian d.Source).length = 8 := toLE_length 8 _
  rw [getElem?_writeAt _ _ _ _ (by omega) (by omega),
    getElem?_writeAt _ _ _ _ (by omega) (by omega), getElem?_growTo, hle]
  have e1 : o + 8 + 32 - (o + 8) = 32 := by omega
  have e2 : o + 8 - o = 8 := by omega
  rw [e1, e2]
  by_cases c1 : o ≤ i ∧ i < o + 8
  · rw [if_pos c1, if_neg (by omega), if_pos (by omega)]
  · rw [if_neg c1]
    by_cases c2 : o + 8 ≤ i ∧ i < o + 8 + min 32 d.SigningRoot.length
    · rw [if_pos c2, if_pos c2]
    · rw [if_neg c2, if_neg c2, if_neg (by omega)]

/-! ## The codec in closed form -/

theorem wellFormed_iff (hd : EncHistoryData) :
    WellFormed hd ↔ 8 ≤ hd.length ∧ (hd.length - 8) % 48 = 0 := Iff.rfl

theorem assertSize_of_wellFormed {hd : EncHistoryData} (h : WellFormed hd) :
    assertSize hd = .ok () := by
  unfold assertSize
  rw [if_neg (by have := h.1; omega), if_neg (by simp [h.2])]

theorem assertSize_of_not_wellFormed {hd : EncHistoryData} (h : ¬ WellFormed hd) :
    ∃ e, assertSize hd = .error e := by
  unfold assertSize
  by_cases h1 : hd.length < minimalSize
  · exact ⟨_, if_pos h1⟩
  · by_cases h2 : (hd.length - minimalSize) % historySize ≠ 0
    · exact ⟨_, by rw [if_neg h1, if_pos h2]⟩
    · exact absurd ⟨by omega, by simpa using h2⟩ h

theorem slotOffset_eq (cfg : BeaconConfig) (t : Nat) :
    slotOffset cfg t = 8 + (t % cfg.WeakSubjectivityPeriod) * 48 := rfl

theorem slotOffset_bound {cfg : BeaconConfig} (hv : cfg.valid) (t : Nat) :
    slotOffset cfg t + 48 < 2 ^ 64 := by
  obtain ⟨h0, h1, _⟩ := hv
  have hlt : t % cfg.WeakSubjectivityPeriod < cfg.WeakSubjectivityPeriod := Nat.mod_lt _ h0
  simp only [latestEpochWrittenSize_eq, historySize_eq] at h1
  rw [slotOffset_eq]
  omega

theorem slotOffset_mod (cfg : BeaconConfig) (t : Nat) :
    slotOffset cfg (t % cfg.WeakSubjectivityPeriod) = slotOffset cfg t := by
  simp [slotOffset_eq, Nat.mod_mod]

theorem SetTargetData_eq {cfg : BeaconConfig} (hv : cfg.valid) {hd : EncHistoryData}
    (hw : WellFormed hd) (t : Nat) (d : HistoryData) :
    SetTargetData cfg hd t d = .ok (putEntry hd (slotOffset cfg t) d) := by
  have hb := slotOffset_bound hv t
  rw [slotOffset_eq] at hb
  unfold SetTargetData
  rw [assertSize_of_wellFormed hw]
  simp only [latestEpochWrittenSize_eq, historySize_eq, sourceSize_eq, signingRootSize_eq]
  have e0 : u64 (t % cfg.WeakSubjectivityPeriod * 48) = t % cfg.WeakSubjectivityPeriod * 48 :=
    u64_of_lt (by omega)
  have e1 : u64 (8 + t % cfg.WeakSubjectivityPeriod * 48)
      = 8 + t % cfg.WeakSubjectivityPeriod * 48 := u64_of_lt (by omega)
  have e2 : u64 (8 + t % cfg.WeakSubjectivityPeriod * 48 + 48)
      = 8 + t % cfg.WeakSubjectivityPeriod * 48 + 48 := u64_of_lt (by omega)
  have e3 : u64 (8 + t % cfg.WeakSubjectivityPeriod * 48 + 8)
      = 8 + t % cfg.WeakSubjectivityPeriod * 48 + 8 := u64_of_lt (by omega)
  have e4 : u64 (8 + t % cfg.WeakSubjectivityPeriod * 48 + 8 + 32)
      = 8 + t % cfg.WeakSubjectivityPeriod * 48 + 8 + 32 := u64_of_lt (by omega)
  rw [e0, e1, e2, e3, e4]
  rfl

theorem entry_root_eq {hd : List Byte} {o : Nat} (h : o + 48 ≤ hd.length) :
    copy (List.replicate 32 0) (slice hd (o + 8) (o + 48)) = slice hd (o + 8) (o + 8 + 32) := by
  apply List.ext_getElem?
  intro i
  rw [getElem?_copy, getElem?_slice, getElem?_slice, slice_length, List.length_replicate]
  by_cases h1 : i < 32
  · rw [if_pos (by omega), if_pos (by omega), if_pos (by omega)]
  · rw [if_neg (by omega), if_neg (by omega), List.getElem?_replicate, if_neg h1]

theorem GetTargetData_eq {cfg : BeaconConfig} (hv : cfg.valid) {hd : EncHistoryData}
    (hw : WellFormed hd) (t : Nat) :
    GetTargetData cfg hd t =
      if hd.length < slotOffset cfg t + 48 then .ok none
      else .ok (some (entryAt hd (slotOffset cfg t))) := by
  have hb := slotOffset_bound hv t
  rw [slotOffset_eq] at hb ⊢
  unfold GetTargetData
  rw [assertSize_of_wellFormed hw]
  simp only [latestEpochWrittenSize_eq, historySize_eq, sourceSize_eq]
  have e0 : u64 (t % cfg.WeakSubjectivityPeriod * 48) = t % cfg.WeakSubjectivityPeriod * 48 :=
    u64_of_lt (by omega)
  have e1 : u64 (t % cfg.WeakSubjectivityPeriod * 48 + 8)
      = 8 + t % cfg.WeakSubjectivityPeriod * 48 := by rw [u64_of_lt (by omega)]; omega
  have e2 : u64 (8 + t % cfg.WeakSubjectivityPeriod * 48 + 48)
      = 8 + t % cfg.WeakSubjectivityPeriod * 48 + 48 := u64_of_lt (by omega)
  have e3 : u64 (8 + t % cfg.WeakSubjectivityPeriod * 48 + 8)
      = 8 + t % cfg.WeakSubjectivityPeriod * 48 + 8 := u64_of_lt (by omega)
  rw [e0, e1, e2, e3]
  by_cases hlen : hd.length < 8 + t % cfg.WeakSubjectivityPeriod * 48 + 48
  · rw [if_pos hlen, if_pos hlen]
  · rw [if_neg hlen, if_neg hlen, entry_root_eq (by omega)]
    rfl

theorem GetLatestEpochWritten_eq {hd : EncHistoryData} (hw : WellFormed hd) :
    GetLatestEpochWritten hd = .ok (FromBytes8 (slice hd 0 8)) := by
  unfold GetLatestEpochWritten
  rw [assertSize_of_wellFormed hw]
  rfl

theorem SetLatestEpochWritten_eq {hd : EncHistoryData} (hw : WellFormed hd) (e : Nat) :
    SetLatestEpochWritten hd e = .ok (writeAt hd 0 8 (Uint64ToBytesLittleEndian e)) := by
  unfold SetLatestEpochWritten
  rw [assertSize_of_wellFormed hw]
  rfl

theorem wellFormed_putEntry {cfg : BeaconConfig} {hd : EncHistoryData} (hw : WellFormed hd)
    (t : Nat) (d : HistoryData) : WellFormed (putEntry hd (slotOffset cfg t) d) := by
  rw [wellFormed_iff] at hw ⊢
  rw [putEntry_length, slotOffset_eq]
  obtain ⟨h1, h2⟩ := hw
  by_cases h : hd.length ≤ 8 + t % cfg.WeakSubjectivityPeriod * 48 + 48
  · rw [max_eq_right h]
    constructor
    · omega
    · have : 8 + t % cfg.WeakSubjectivityPeriod * 48 + 48 - 8
          = (t % cfg.WeakSubjectivityPeriod + 1) * 48 := by omega
      rw [this]; exact Nat.mul_mod_left _ _
  · rw [max_eq_left (by omega)]
    exact ⟨h1, h2⟩

theorem wellFormed_of_length_eq {hd hd' : EncHistoryData} (h : hd'.length = hd.length)
    (hw : WellFormed hd) : WellFormed hd' := by
  rw [wellFormed_iff] at hw ⊢
  rw [h]; exact hw

theorem wellFormed_writeHeader {hd : EncHistoryData} (hw : WellFormed hd) (src : List Byte) :
    WellFormed (writeAt hd 0 8 src) :=
  wellFormed_of_length_eq (writeAt_length _ _ _ _ (by omega) (by have := hw.1; simp only [minimalSize_eq] at this; omega)) hw

/-! ## Entries -/

theorem entryAt_congr {l l' : List Byte} {o : Nat}
    (h : ∀ i, o ≤ i → i < o + 40 → l[i]? = l'[i]?) : entryAt l o = entryAt l' o := by
  unfold entryAt
  simp only [sourceSize_eq, signingRootSize_eq]
  rw [@slice_congr l l' o (o + 8) (fun i h1 h2 => h i h1 (by omega)),
    @slice_congr l l' (o + 8) (o + 8 + 32) (fun i h1 h2 => h i (by omega) (by omega))]

theorem slice_eq_of_getElem? {l s : List Byte} {a : Nat}
    (h : ∀ i, i < s.length → l[a + i]? = s[i]?) : slice l a (a + s.length) = s := by
  apply List.ext_getElem?
  intro i
  rw [getElem?_slice]
  by_cases hi : i < s.length
  · rw [if_pos (by omega)]; exact h i hi
  · rw [if_neg (by omega), List.getElem?_eq_none (by omega)]

theorem slice_putEntry_source (hd : List Byte) (o : Nat) (d : HistoryData) :
    slice (putEntry hd o d) o (o + 8) = Uint64ToBytesLittleEndian d.Source := by
  have hl : (Uint64ToBytesLittleEndian d.Source).length = 8 := toLE_length 8 _
  have := slice_eq_of_getElem? (l := putEntry hd o d) (s := Uint64ToBytesLittleEndian d.Source)
    (a := o) (by
      intro i hi
      rw [getElem?_putEntry, if_pos (by omega)]
      congr 1; omega)
  rwa [hl] at this

theorem slice_putEntry_root (hd : List Byte) (o : Nat) (d : HistoryData)
    (hr : d.SigningRoot.length = 32) :
    slice (putEntry hd o d) (o + 8) (o + 8 + 32) = d.SigningRoot := by
  have := slice_eq_of_getElem? (l := putEntry hd o d) (s := d.SigningRoot)
    (a := o + 8) (by
      intro i hi
      rw [getElem?_putEntry, if_neg (by omega), if_pos (by omega)]
      congr 1; omega)
  rwa [hr] at this

theorem entryAt_putEntry (hd : List Byte) (o : Nat) (d : HistoryData)
    (hs : d.Source < 2 ^ 64) (hr : d.SigningRoot.length = 32) :
    entryAt (putEntry hd o d) o = d := by
  unfold entryAt
  simp only [sourceSize_eq, signingRootSize_eq]
  rw [slice_putEntry_source, slice_putEntry_root _ _ _ hr,
    FromBytes8_Uint64ToBytesLittleEndian hs]

theorem entryAt_root_length {hd : List Byte} {o : Nat} (h : o + 48 ≤ hd.length) :
    (entryAt hd o).SigningRoot.length = 32 := by
  unfold entryAt
  simp only [sourceSize_eq, signingRootSize_eq, slice_length]
  omega

/-- Outside the source and root bytes of the slot at `o`, and inside `hd`,
`putEntry` changes nothing. -/
theorem getElem?_putEntry_of_outside (hd : List Byte) (o : Nat) (d : HistoryData) (i : Nat)
    (hi : i < hd.length) (ho : i < o ∨ o + 40 ≤ i) :
    (putEntry hd o d)[i]? = hd[i]? := by
  rw [getElem?_putEntry, if_neg (by omega), if_neg (by omega), if_pos hi]

theorem getElem?_writeHeader_of_ge (hd : List Byte) (src : List Byte) (i : Nat)
    (h8 : 8 ≤ hd.length) (hi : 8 ≤ i) : (writeAt hd 0 8 src)[i]? = hd[i]? := by
  rw [getElem?_writeAt _ _ _ _ (by omega) h8, if_neg (by omega)]

theorem slice_writeHeader (hd : List Byte) (e : Nat) (h8 : 8 ≤ hd.length) :
    slice (writeAt hd 0 8 (Uint64ToBytesLittleEndian e)) 0 8 = Uint64ToBytesLittleEndian e := by
  have hl : (Uint64ToBytesLittleEndian e).length = 8 := toLE_length 8 _
  have := slice_eq_of_getElem? (l := writeAt hd 0 8 (Uint64ToBytesLittleEndian e))
    (s := Uint64ToBytesLittleEndian e) (a := 0) (by
      intro i hi
      rw [getElem?_writeAt _ _ _ _ (by omega) h8, if_pos (by omega)]
      congr 1; omega)
  rwa [hl] at this

/-- Two slots of different epochs modulo the period do not overlap. -/
theorem slotOffset_disjoint {cfg : BeaconConfig} {u t : Nat}
    (h : u % cfg.WeakSubjectivityPeriod ≠ t % cfg.WeakSubjectivityPeriod) :
    slotOffset cfg u + 48 ≤ slotOffset cfg t ∨ slotOffset cfg t + 48 ≤ slotOffset cfg u := by
  rw [slotOffset_eq, slotOffset_eq]
  omega

/-! ## The clearing loop -/

theorem getElem?_putEntry_clear_source (cfg : BeaconConfig) (hd : List Byte) (o j : Nat)
    (h1 : o ≤ j) (h2 : j < o + 8) :
    (putEntry hd o { Source := cfg.FarFutureEpoch, SigningRoot := [] })[j]?
      = (Uint64ToBytesLittleEndian cfg.FarFutureEpoch)[j - o]? := by
  rw [getElem?_putEntry, if_pos ⟨h1, h2⟩]

theorem getElem?_putEntry_clear_other (cfg : BeaconConfig) (hd : List Byte) (o j : Nat)
    (hj : j < hd.length) (h : ¬ (o ≤ j ∧ j < o + 8)) :
    (putEntry hd o { Source := cfg.FarFutureEpoch, SigningRoot := [] })[j]? = hd[j]? := by
  rw [getElem?_putEntry, if_neg h, if_neg (by simp), if_pos hj]

/-- The clearing loop on a well-formed `hist` never fails. In its result, every
byte of `hist` outside the source bytes of the slots the loop visited is as it
was, and the source bytes of every visited slot that lies inside `hist` hold
`FarFutureEpoch`. -/
theorem clearLoop_spec {cfg : BeaconConfig} (hv : cfg.valid) (T M : Nat) :
    ∀ (fuel i : Nat) (hist cur : EncHistoryData), WellFormed hist → WellFormed cur →
      hist.length ≤ cur.length → (∀ j, j < hist.length → cur[j]? = hist[j]?) →
      ∃ res, clearLoop cfg T M fuel i hist cur = .ok res ∧ WellFormed res ∧
        hist.length ≤ res.length ∧
        (∀ j, j < hist.length →
          (∀ k, i ≤ k → k < i + fuel → k < T → k ≤ M →
            ¬ (slotOffset cfg k ≤ j ∧ j < slotOffset cfg k + 8)) →
          res[j]? = hist[j]?) ∧
        (∀ k, i ≤ k → k < i + fuel → k < T → k ≤ M →
          slotOffset cfg k + 48 ≤ hist.length →
          ∀ j, slotOffset cfg k ≤ j → j < slotOffset cfg k + 8 →
            res[j]? = (Uint64ToBytesLittleEndian cfg.FarFutureEpoch)[j - slotOffset cfg k]?) := by
  intro fuel
  induction fuel with
  | zero =>
    intro i hist cur _ hwc hlen hagree
    refine ⟨cur, rfl, hwc, hlen, fun j hj _ => hagree j hj, ?_⟩
    intro k h1 h2
    omega
  | succ fuel ih =>
    intro i hist cur hwh hwc hlen hagree
    unfold clearLoop
    by_cases hc : i < T ∧ i ≤ M
    · rw [if_pos hc, SetTargetData_eq hv hwh, slotOffset_mod]
      simp only
      have hnl : hist.length ≤ (putEntry hist (slotOffset cfg i)
          { Source := cfg.FarFutureEpoch, SigningRoot := [] }).length := by
        rw [putEntry_length]; omega
      have htl : ((putEntry hist (slotOffset cfg i)
          { Source := cfg.FarFutureEpoch, SigningRoot := [] }).take hist.length).length
          = hist.length := by
        rw [List.length_take]; omega
      have hwn : WellFormed (putEntry hist (slotOffset cfg i)
          { Source := cfg.FarFutureEpoch, SigningRoot := [] }) := wellFormed_putEntry hwh i _
      obtain ⟨res, hres, hwr, hrl, hI1, hI2⟩ := ih (i + 1)
        ((putEntry hist (slotOffset cfg i)
          { Source := cfg.FarFutureEpoch, SigningRoot := [] }).take hist.length)
        (putEntry hist (slotOffset cfg i) { Source := cfg.FarFutureEpoch, SigningRoot := [] })
        (wellFormed_of_length_eq htl hwh) hwn (by rw [htl]; exact hnl)
        (by
          intro j hj
          rw [htl] at hj
          rw [List.getElem?_take_of_lt hj])
      rw [htl] at hrl hI1 hI2
      refine ⟨res, hres, hwr, hrl, ?_, ?_⟩
      · intro j hj hno
        rw [hI1 j hj (fun k h1 h2 h3 h4 => hno k (by omega) (by omega) h3 h4),
          List.getElem?_take_of_lt hj]
        exact getElem?_putEntry_clear_other cfg hist _ j hj
          (hno i (le_refl _) (by omega) hc.1 hc.2)
      · intro k h1 h2 h3 h4 hin j hj1 hj2
        by_cases hk : k = i
        · subst hk
          by_cases hex : ∃ k', k + 1 ≤ k' ∧ k' < k + 1 + fuel ∧ k' < T ∧ k' ≤ M ∧
              slotOffset cfg k' ≤ j ∧ j < slotOffset cfg k' + 8
          · obtain ⟨k', g1, g2, g3, g4, g5, g6⟩ := hex
            have hoff : slotOffset cfg k' = slotOffset cfg k := by
              rw [slotOffset_eq] at hj1 hj2 g5 g6 ⊢
              rw [slotOffset_eq]
              omega
            rw [hI2 k' g1 g2 g3 g4 (by rw [hoff]; exact hin) j g5 g6, hoff]
          · have hj : j < hist.length := by omega
            rw [hI1 j hj (fun k' g1 g2 g3 g4 g => hex ⟨k', g1, g2, g3, g4, g.1, g.2⟩),
              List.getElem?_take_of_lt hj]
            exact getElem?_putEntry_clear_source cfg hist _ j hj1 hj2
        · exact hI2 k (by omega) (by omega) h3 h4 hin j hj1 hj2
    · rw [if_neg hc]
      refine ⟨cur, rfl, hwc, hlen, fun j hj _ => hagree j hj, ?_⟩
      intro k h1 h2 h3 h4
      exact absurd ⟨by omega, by omega⟩ hc

/-- More fuel than the loop needs changes nothing: once `T ≤ i + fuel`, the
result is that of any larger fuel. -/
theorem clearLoop_fuel (cfg : BeaconConfig) (T M : Nat) :
    ∀ (fuel i : Nat) (hist cur : EncHistoryData), T ≤ i + fuel →
      clearLoop cfg T M (fuel + 1) i hist cur = clearLoop cfg T M fuel i hist cur := by
  intro fuel
  induction fuel with
  | zero =>
    intro i hist cur h
    unfold clearLoop
    rw [if_neg (by omega)]
  | succ fuel ih =>
    intro i hist cur h
    rw [clearLoop]
    conv_rhs => rw [clearLoop]
    by_cases hc : i < T ∧ i ≤ M
    · rw [if_pos hc, if_pos hc]
      cases SetTargetData cfg hist (i % cfg.WeakSubjectivityPeriod)
          { Source := cfg.FarFutureEpoch, SigningRoot := [] } with
      | error e => rfl
      | ok newHD => exact ih (i + 1) _ _ (by omega)
    · rw [if_neg hc, if_neg hc]

/-! ## `MarkAllAsAttestedSinceLatestWrittenEpoch` in closed form -/

theorem MarkAll_past {cfg : BeaconConfig} (hv : cfg.valid) {hist : EncHistoryData}
    (hw : WellFormed hist) {L T : Nat} (hL : GetLatestEpochWritten hist = .ok L) (hT : T ≤ L)
    (att : HistoryData) :
    MarkAllAsAttestedSinceLatestWrittenEpoch cfg hist T att
      = .ok (putEntry hist (slotOffset cfg T) att) := by
  unfold MarkAllAsAttestedSinceLatestWrittenEpoch
  simp only [hL]
  rw [if_neg (by omega)]
  simp only [SetTargetData_eq hv hw, slotOffset_mod]

theorem MarkAll_forward {cfg : BeaconConfig} (hv : cfg.valid) {hist : EncHistoryData}
    (hw : WellFormed hist) {L T : Nat} (hL : GetLatestEpochWritten hist = .ok L) (hT : L < T)
    (att : HistoryData) :
    ∃ cur, WellFormed cur ∧ hist.length ≤ cur.length ∧
      (∀ j, j < hist.length →
        (∀ k, L < k → k < T → k ≤ u64 (L + cfg.WeakSubjectivityPeriod) →
          ¬ (slotOffset cfg k ≤ j ∧ j < slotOffset cfg k + 8)) →
        cur[j]? = hist[j]?) ∧
      (∀ k, L < k → k < T → k ≤ u64 (L + cfg.WeakSubjectivityPeriod) →
        slotOffset cfg k + 48 ≤ hist.length →
        ∀ j, slotOffset cfg k ≤ j → j < slotOffset cfg k + 8 →
          cur[j]? = (Uint64ToBytesLittleEndian cfg.FarFutureEpoch)[j - slotOffset cfg k]?) ∧
      MarkAllAsAttestedSinceLatestWrittenEpoch cfg hist T att
        = .ok (putEntry (writeAt cur 0 8 (Uint64ToBytesLittleEndian T)) (slotOffset cfg T) att) := by
  obtain ⟨cur, hcur, hwc, hlen, hI1, hI2⟩ :=
    clearLoop_spec hv T (u64 (L + cfg.WeakSubjectivityPeriod)) (T - L) (L + 1) hist hist
      hw hw (le_refl _) (fun _ _ => rfl)
  refine ⟨cur, hwc, hlen, ?_, ?_, ?_⟩
  · intro j hj hno
    exact hI1 j hj (fun k h1 _ h3 h4 => hno k (by omega) h3 h4)
  · intro k h1 h2 h3 hin j hj1 hj2
    exact hI2 k (by omega) (by omega) h2 h3 hin j hj1 hj2
  · unfold MarkAllAsAttestedSinceLatestWrittenEpoch
    simp only [hL]
    rw [if_pos hT]
    simp only [hcur, SetLatestEpochWritten_eq hwc,
      SetTargetData_eq hv (wellFormed_writeHeader hwc _), slotOffset_mod]

/-- After a forward write, a slot the clearing loop visited, which lies inside
`hist` and is not the slot of the incoming target, reads `FarFutureEpoch` with
the signing root `hist` held there. -/
theorem MarkAll_forward_cleared {cfg : BeaconConfig} (hv : cfg.valid) {hist : EncHistoryData}
    (hw : WellFormed hist) {L T : Nat} (hL : GetLatestEpochWritten hist = .ok L) (hT : L < T)
    (att : HistoryData) {k : Nat} (hk1 : L < k) (hk2 : k < T)
    (hk3 : k ≤ u64 (L + cfg.WeakSubjectivityPeriod))
    (hne : k % cfg.WeakSubjectivityPeriod ≠ T % cfg.WeakSubjectivityPeriod)
    (hin : slotOffset cfg k + 48 ≤ hist.length) :
    ∃ res, MarkAllAsAttestedSinceLatestWrittenEpoch cfg hist T att = .ok res ∧
      GetTargetData cfg res k = .ok (some
        { Source := cfg.FarFutureEpoch,
          SigningRoot := (entryAt hist (slotOffset cfg k)).SigningRoot }) := by
  obtain ⟨cur, hwc, hlen, hI1, hI2, hres⟩ := MarkAll_forward hv hw hL hT att
  refine ⟨_, hres, ?_⟩
  have h8 : 8 ≤ cur.length := hwc.1
  have hwl : (writeAt cur 0 8 (Uint64ToBytesLittleEndian T)).length = cur.length :=
    writeAt_length _ _ _ _ (by omega) h8
  have hok : 8 ≤ slotOffset cfg k := by rw [slotOffset_eq]; omega
  rw [GetTargetData_eq hv (wellFormed_putEntry (wellFormed_writeHeader hwc _) T att),
    putEntry_length, hwl, if_neg (by omega)]
  -- the bytes of the slot of `k` in the result are those of `cur`
  have hsame : ∀ j, slotOffset cfg k ≤ j → j < slotOffset cfg k + 40 →
      (putEntry (writeAt cur 0 8 (Uint64ToBytesLittleEndian T)) (slotOffset cfg T) att)[j]?
        = cur[j]? := by
    intro j hj1 hj2
    rw [getElem?_putEntry_of_outside _ _ _ _ (by omega)
      (by have := slotOffset_disjoint hne; omega),
      getElem?_writeHeader_of_ge _ _ _ h8 (by omega)]
  have hsrc : slice (putEntry (writeAt cur 0 8 (Uint64ToBytesLittleEndian T))
      (slotOffset cfg T) att) (slotOffset cfg k) (slotOffset cfg k + 8)
      = Uint64ToBytesLittleEndian cfg.FarFutureEpoch := by
    have hl : (Uint64ToBytesLittleEndian cfg.FarFutureEpoch).length = 8 := toLE_length 8 _
    have := slice_eq_of_getElem? (l := putEntry (writeAt cur 0 8 (Uint64ToBytesLittleEndian T))
      (slotOffset cfg T) att) (s := Uint64ToBytesLittleEndian cfg.FarFutureEpoch)
      (a := slotOffset cfg k) (by
        intro i hi
        rw [hsame _ (by omega) (by omega), hI2 k hk1 hk2 hk3 hin _ (by omega) (by omega)]
        congr 1; omega)
    rwa [hl] at this
  have hroot : slice (putEntry (writeAt cur 0 8 (Uint64ToBytesLittleEndian T))
      (slotOffset cfg T) att) (slotOffset cfg k + 8) (slotOffset cfg k + 8 + 32)
      = slice hist (slotOffset cfg k + 8) (slotOffset cfg k + 8 + 32) := by
    apply slice_congr
    intro j hj1 hj2
    rw [hsame _ (by omega) (by omega)]
    apply hI1 j (by omega)
    intro k' _ _ _ hcon
    rw [slotOffset_eq] at hcon hj1 hj2
    omega
  unfold entryAt
  simp only [sourceSize_eq, signingRootSize_eq]
  rw [hsrc, hroot, FromBytes8_Uint64ToBytesLittleEndian hv.2.2]

theorem GetLatestEpochWritten_putEntry {cfg : BeaconConfig} {hd : EncHistoryData}
    (hw : WellFormed hd) (t : Nat) (d : HistoryData) :
    GetLatestEpochWritten (putEntry hd (slotOffset cfg t) d) = GetLatestEpochWritten hd := by
  have h8 : 8 ≤ hd.length := hw.1
  rw [GetLatestEpochWritten_eq (wellFormed_putEntry hw t d), GetLatestEpochWritten_eq hw]
  congr 2
  apply slice_congr
  intro i _ hi
  exact getElem?_putEntry_of_outside _ _ _ _ (by omega) (Or.inl (by rw [slotOffset_eq]; omega))

theorem GetLatestEpochWritten_writeHeader {hd : EncHistoryData} (hw : WellFormed hd)
    {e : Nat} (he : e < 2 ^ 64) :
    GetLatestEpochWritten (writeAt hd 0 8 (Uint64ToBytesLittleEndian e)) = .ok e := by
  rw [GetLatestEpochWritten_eq (wellFormed_writeHeader hw _), slice_writeHeader _ _ hw.1,
    FromBytes8_Uint64ToBytesLittleEndian he]

theorem GetTargetData_putEntry_self {cfg : BeaconConfig} (hv : cfg.valid) {hd : EncHistoryData}
    (hw : WellFormed hd) (t : Nat) (d : HistoryData) (hs : d.Source < 2 ^ 64)
    (hr : d.SigningRoot.length = 32) :
    GetTargetData cfg (putEntry hd (slotOffset cfg t) d) t = .ok (some d) := by
  rw [GetTargetData_eq hv (wellFormed_putEntry hw t _), putEntry_length,
    if_neg (by omega), entryAt_putEntry _ _ _ hs hr]

theorem GetTargetData_putEntry_other {cfg : BeaconConfig} (hv : cfg.valid)
    {hd : EncHistoryData} (hw : WellFormed hd) (t u : Nat) (d : HistoryData)
    (hne : u % cfg.WeakSubjectivityPeriod ≠ t % cfg.WeakSubjectivityPeriod)
    (hgap : ¬ (hd.length < slotOffset cfg u + 48 ∧
      u % cfg.WeakSubjectivityPeriod < t % cfg.WeakSubjectivityPeriod)) :
    GetTargetData cfg (putEntry hd (slotOffset cfg t) d) u = GetTargetData cfg hd u := by
  rw [GetTargetData_eq hv (wellFormed_putEntry hw t _), GetTargetData_eq hv hw, putEntry_length]
  have hdis := slotOffset_disjoint hne
  by_cases hlen : hd.length < slotOffset cfg u + 48
  · have hlt : t % cfg.WeakSubjectivityPeriod < u % cfg.WeakSubjectivityPeriod := by omega
    have : slotOffset cfg t + 48 ≤ slotOffset cfg u := by
      rw [slotOffset_eq, slotOffset_eq]; omega
    rw [if_pos hlen, if_pos (by omega)]
  · rw [if_neg hlen, if_neg (by omega)]
    congr 2
    apply entryAt_congr
    intro i hi1 hi2
    exact getElem?_putEntry_of_outside _ _ _ _ (by omega) (by omega)

/-! ## The loop of `NewAttestationHistoryArray` -/

theorem emptyHistoryData_root_length (cfg : BeaconConfig) :
    (emptyHistoryData cfg).SigningRoot.length = 32 := rfl

theorem emptyHistoryData_root (cfg : BeaconConfig) :
    (emptyHistoryData cfg).SigningRoot = List.replicate 32 0 := rfl

theorem newLoop_spec {cfg : BeaconConfig} (hv : cfg.valid) (t : Nat) :
    ∀ (fuel i : Nat) (enc : EncHistoryData), WellFormed enc →
      enc.length = 8 + (t % cfg.WeakSubjectivityPeriod + 1) * 48 →
      (newLoop cfg t fuel i enc).length = enc.length ∧
      (∀ j, (∀ k, i ≤ k → k < i + fuel → k ≤ t % cfg.WeakSubjectivityPeriod →
          ¬ (8 + k * 48 ≤ j ∧ j < 8 + k * 48 + 40)) →
        (newLoop cfg t fuel i enc)[j]? = enc[j]?) ∧
      (∀ k, i ≤ k → k < i + fuel → k ≤ t % cfg.WeakSubjectivityPeriod →
        entryAt (newLoop cfg t fuel i enc) (8 + k * 48) = emptyHistoryData cfg) := by
  have hlt : t % cfg.WeakSubjectivityPeriod < cfg.WeakSubjectivityPeriod := Nat.mod_lt _ hv.1
  intro fuel
  induction fuel with
  | zero =>
    intro i enc _ _
    refine ⟨rfl, fun _ _ => rfl, ?_⟩
    intro k h1 h2
    omega
  | succ fuel ih =>
    intro i enc hw hlen
    unfold newLoop
    by_cases hc : i ≤ t % cfg.WeakSubjectivityPeriod
    · have hoff : slotOffset cfg i = 8 + i * 48 := by
        rw [slotOffset_eq, Nat.mod_eq_of_lt (by omega)]
      rw [if_pos hc, SetTargetData_eq hv hw, hoff]
      simp only
      have hl1 : (putEntry enc (8 + i * 48) (emptyHistoryData cfg)).length = enc.length := by
        rw [putEntry_length, hlen]
        have : i * 48 ≤ t % cfg.WeakSubjectivityPeriod * 48 := Nat.mul_le_mul_right 48 hc
        omega
      have hw1 : WellFormed (putEntry enc (8 + i * 48) (emptyHistoryData cfg)) :=
        wellFormed_of_length_eq hl1 hw
      obtain ⟨hL, hI1, hI2⟩ := ih (i + 1) _ hw1 (by rw [hl1]; exact hlen)
      refine ⟨by rw [hL, hl1], ?_, ?_⟩
      · intro j hno
        rw [hI1 j (fun k h1 h2 h3 => hno k (by omega) (by omega) h3)]
        have hn := hno i (le_refl _) (by omega) hc
        rw [getElem?_putEntry, if_neg (by omega), if_neg (by omega)]
        by_cases hj : j < enc.length
        · rw [if_pos hj]
        · have : i * 48 ≤ t % cfg.WeakSubjectivityPeriod * 48 := Nat.mul_le_mul_right 48 hc
          rw [if_neg hj, if_neg (by omega), List.getElem?_eq_none (by omega)]
      · intro k h1 h2 h3
        by_cases hk : k = i
        · subst hk
          rw [@entryAt_congr _ (putEntry enc (8 + k * 48) (emptyHistoryData cfg)) _
            (fun j hj1 hj2 => hI1 j (fun k' g1 _ _ => by omega))]
          exact entryAt_putEntry _ _ _ hv.2.2 (emptyHistoryData_root_length cfg)
        · exact hI2 k (by omega) (by omega) h3
    · rw [if_neg hc]
      refine ⟨rfl, fun _ _ => rfl, ?_⟩
      intro k h1 _ h3
      omega

theorem NewAttestationHistoryArray_eq {cfg : BeaconConfig} (hv : cfg.valid) (t : Nat) :
    NewAttestationHistoryArray cfg t
      = newLoop cfg t (t % cfg.WeakSubjectivityPeriod + 1) 0
          (List.replicate (8 + (t % cfg.WeakSubjectivityPeriod + 1) * 48) 0) := by
  have hb := slotOffset_bound hv t
  rw [slotOffset_eq] at hb
  unfold NewAttestationHistoryArray
  simp only [latestEpochWrittenSize_eq, historySize_eq]
  rw [u64_of_lt (x := (t % cfg.WeakSubjectivityPeriod + 1) * 48) (by omega),
    u64_of_lt (by omega)]

theorem wellFormed_replicate (k : Nat) : WellFormed (List.replicate (8 + k * 48) (0 : Byte)) := by
  rw [wellFormed_iff, List.length_replicate]
  exact ⟨by omega, by rw [Nat.add_sub_cancel_left]; exact Nat.mul_mod_left _ _⟩

theorem NewAttestationHistoryArray_length {cfg : BeaconConfig} (hv : cfg.valid) (t : Nat) :
    (NewAttestationHistoryArray cfg t).length
      = 8 + (t % cfg.WeakSubjectivityPeriod + 1) * 48 := by
  rw [NewAttestationHistoryArray_eq hv]
  rw [(newLoop_spec hv t _ 0 _ (wellFormed_replicate _) (List.length_replicate _ _)).1,
    List.length_replicate]

theorem wellFormed_New {cfg : BeaconConfig} (hv : cfg.valid) (t : Nat) :
    WellFormed (NewAttestationHistoryArray cfg t) := by
  rw [wellFormed_iff, NewAttestationHistoryArray_length hv]
  exact ⟨by omega, by rw [Nat.add_sub_cancel_left]; exact Nat.mul_mod_left _ _⟩

/-! ## Errors -/

theorem wellFormed_iff_exists (hd : EncHistoryData) :
    WellFormed hd ↔ ∃ k, hd.length = 8 + k * historySize := by
  rw [wellFormed_iff, historySize_eq]
  constructor
  · rintro ⟨h1, h2⟩
    exact ⟨(hd.length - 8) / 48, by omega⟩
  · rintro ⟨k, hk⟩
    rw [hk]
    exact ⟨by omega, by rw [Nat.add_sub_cancel_left]; exact Nat.mul_mod_left _ _⟩

theorem MarkAll_ok {cfg : BeaconConfig} (hv : cfg.valid) {hist : EncHistoryData}
    (hw : WellFormed hist) (T : Nat) (att : HistoryData) :
    ∃ res, MarkAllAsAttestedSinceLatestWrittenEpoch cfg hist T att = .ok res ∧
      WellFormed res := by
  have hL := GetLatestEpochWritten_eq hw
  by_cases hT : FromBytes8 (slice hist 0 8) < T
  · obtain ⟨cur, hwc, _, _, _, hres⟩ := MarkAll_forward hv hw hL hT att
    exact ⟨_, hres, wellFormed_putEntry (wellFormed_writeHeader hwc _) T att⟩
  · exact ⟨_, MarkAll_past hv hw hL (by omega) att, wellFormed_putEntry hw T att⟩

theorem GetLatestEpochWritten_error {hd : EncHistoryData} (h : ¬ WellFormed hd) :
    ∃ e, GetLatestEpochWritten hd = .error e := by
  obtain ⟨e, he⟩ := assertSize_of_not_wellFormed h
  exact ⟨e, by unfold GetLatestEpochWritten; rw [he]⟩

theorem SetLatestEpochWritten_error {hd : EncHistoryData} (h : ¬ WellFormed hd) (x : Nat) :
    ∃ e, SetLatestEpochWritten hd x = .error e := by
  obtain ⟨e, he⟩ := assertSize_of_not_wellFormed h
  exact ⟨e, by unfold SetLatestEpochWritten; rw [he]⟩

theorem GetTargetData_error (cfg : BeaconConfig) {hd : EncHistoryData} (h : ¬ WellFormed hd)
    (t : Nat) : ∃ e, GetTargetData cfg hd t = .error e := by
  obtain ⟨e, he⟩ := assertSize_of_not_wellFormed h
  exact ⟨e, by unfold GetTargetData; rw [he]⟩

theorem SetTargetData_error (cfg : BeaconConfig) {hd : EncHistoryData} (h : ¬ WellFormed hd)
    (t : Nat) (d : HistoryData) : ∃ e, SetTargetData cfg hd t d = .error e := by
  obtain ⟨e, he⟩ := assertSize_of_not_wellFormed h
  exact ⟨e, by unfold SetTargetData; rw [he]⟩

theorem MarkAll_error (cfg : BeaconConfig) {hd : EncHistoryData} (h : ¬ WellFormed hd)
    (T : Nat) (d : HistoryData) :
    ∃ e, MarkAllAsAttestedSinceLatestWrittenEpoch cfg hd T d = .error e := by
  obtain ⟨e, he⟩ := GetLatestEpochWritten_error h
  exact ⟨_, by unfold MarkAllAsAttestedSinceLatestWrittenEpoch; rw [he]⟩

/-! ## Claims on the codec -/

/-- C1. Round trip: on a well-formed history, `SetTargetData` of the entry
`{Source: s, SigningRoot: r}` with a 32-byte `r` at target epoch `t` succeeds, and
`GetTargetData` of the result at `t` returns, without error, exactly that entry. -/
theorem C1_set_get_round_trip (cfg : BeaconConfig) (hv : cfg.valid) (hd : EncHistoryData)
    (hw : WellFormed hd) (t s : Nat) (r : List Byte) (hs : s < 2 ^ 64) (hr : r.length = 32) :
    ∃ res, SetTargetData cfg hd t { Source := s, SigningRoot := r } = .ok res ∧
      GetTargetData cfg res t = .ok (some { Source := s, SigningRoot := r }) := by
  refine ⟨_, SetTargetData_eq hv hw t _, ?_⟩
  rw [GetTargetData_eq hv (wellFormed_putEntry hw t _), putEntry_length,
    if_neg (by omega), entryAt_putEntry _ _ _ hs hr]

theorem C1_set_get_round_trip_witness :
    ∃ res, SetTargetData ⟨3, 2 ^ 64 - 1⟩ (List.replicate 8 0) 4
        { Source := 7, SigningRoot := List.replicate 32 1 } = .ok res ∧
      GetTargetData ⟨3, 2 ^ 64 - 1⟩ res 4
        = .ok (some { Source := 7, SigningRoot := List.replicate 32 1 }) :=
  C1_set_get_round_trip ⟨3, 2 ^ 64 - 1⟩ (by decide) (List.replicate 8 0) (by decide) 4 7
    (List.replicate 32 1) (by decide) (by decide)

/-- C2, as stated, fails: with a period of 3, writing source epoch 1 at target
epoch 1 into a header-only buffer does not put the source epoch at byte offset
`8 + (1 mod 3) * 40`; those 8 bytes are zero. -/
theorem C2_stride_40_counterexample :
    ∃ res, SetTargetData ⟨3, 2 ^ 64 - 1⟩ (List.replicate 8 0) 1
        { Source := 1, SigningRoot := List.replicate 32 1 } = .ok res ∧
      slice res (8 + (1 % 3) * 40) (8 + (1 % 3) * 40 + 8) ≠ Uint64ToBytesLittleEndian 1 ∧
      slice res (8 + (1 % 3) * 40) (8 + (1 % 3) * 40 + 8) = List.replicate 8 0 :=
  ⟨_, rfl, by decide, by decide⟩

/-- C2, amended. Byte layout: the result of `SetTargetData(hd, e, {s, r})` on a
well-formed `hd`, with a 32-byte `r`, holds `s` as 8 little-endian bytes at byte
offset `8 + (e mod WeakSubjectivityPeriod) * 48`, immediately followed by the 32
bytes of `r`; the entry size is 48, so the slot of the next epoch of the period
starts 48 bytes further, and the header bytes `[0, 8)` are those of `hd`. -/
theorem C2_byte_layout_stride_48 (cfg : BeaconConfig) (hv : cfg.valid) (hd : EncHistoryData)
    (hw : WellFormed hd) (e s : Nat) (r : List Byte) (hr : r.length = 32) :
    ∃ res, SetTargetData cfg hd e { Source := s, SigningRoot := r } = .ok res ∧
      slice res (8 + (e % cfg.WeakSubjectivityPeriod) * 48)
          (8 + (e % cfg.WeakSubjectivityPeriod) * 48 + 8) = Uint64ToBytesLittleEndian s ∧
      slice res (8 + (e % cfg.WeakSubjectivityPeriod) * 48 + 8)
          (8 + (e % cfg.WeakSubjectivityPeriod) * 48 + 8 + 32) = r ∧
      slice res 0 8 = slice hd 0 8 ∧
      historySize = 48 ∧
      ((e + 1) % cfg.WeakSubjectivityPeriod ≠ 0 →
        slotOffset cfg (e + 1) = slotOffset cfg e + 48) := by
  refine ⟨_, SetTargetData_eq hv hw e _, ?_, ?_, ?_, rfl, ?_⟩
  · exact slice_putEntry_source _ _ _
  · exact slice_putEntry_root _ _ _ hr
  · apply slice_congr
    intro i _ hi
    have h8 : 8 ≤ hd.length := hw.1
    exact getElem?_putEntry_of_outside _ _ _ _ (by omega) (Or.inl (by rw [slotOffset_eq]; omega))
  · intro hne
    have h0 := hv.1
    rw [slotOffset_eq, slotOffset_eq]
    have : (e + 1) % cfg.WeakSubjectivityPeriod = e % cfg.WeakSubjectivityPeriod + 1 := by
      rw [Nat.add_mod]
      by_cases h1 : cfg.WeakSubjectivityPeriod = 1
      · rw [h1, Nat.mod_one] at hne; exact absurd rfl hne
      · have h1m : 1 % cfg.WeakSubjectivityPeriod = 1 := Nat.mod_eq_of_lt (by omega)
        rw [h1m]
        have hlt : e % cfg.WeakSubjectivityPeriod < cfg.WeakSubjectivityPeriod := Nat.mod_lt _ h0
        by_cases h2 : e % cfg.WeakSubjectivityPeriod + 1 < cfg.WeakSubjectivityPeriod
        · exact Nat.mod_eq_of_lt h2
        · have h3 : e % cfg.WeakSubjectivityPeriod + 1 = cfg.WeakSubjectivityPeriod := by omega
          rw [Nat.add_mod, h1m, h3, Nat.mod_self] at hne
          exact absurd rfl hne
    rw [this]; omega

theorem C2_byte_layout_stride_48_witness :
    ∃ res, SetTargetData ⟨3, 2 ^ 64 - 1⟩ (List.replicate 8 0) 1
        { Source := 1, SigningRoot := List.replicate 32 1 } = .ok res ∧
      slice res (8 + (1 % 3) * 48) (8 + (1 % 3) * 48 + 8) = Uint64ToBytesLittleEndian 1 ∧
      slice res (8 + (1 % 3) * 48 + 8) (8 + (1 % 3) * 48 + 8 + 32) = List.replicate 32 1 ∧
      slice res 0 8 = slice (List.replicate 8 0) 0 8 ∧
      historySize = 48 ∧
      slotOffset ⟨3, 2 ^ 64 - 1⟩ (1 + 1) = slotOffset ⟨3, 2 ^ 64 - 1⟩ 1 + 48 :=
  match C2_byte_layout_stride_48 ⟨3, 2 ^ 64 - 1⟩ (by decide) (List.replicate 8 0) (by decide)
      1 1 (List.replicate 32 1) (by decide) with
  | ⟨res, h1, h2, h3, h4, h5, h6⟩ => ⟨res, h1, h2, h3, h4, h5, h6 (by decide)⟩

set_option maxRecDepth 100000 in
/-- C3. The clearing pass at an input where it fails, with a period of 4 and
with a period of 54000: the fresh history `NewAttestationHistoryArray(0)` has
latest epoch written 0 and holds one slot. After
`MarkAllAsAttestedSinceLatestWrittenEpoch(hist, 3, {7, 32 x 0x01})` the epochs 1
and 2 both lie strictly between 0 and `min(3, 0 + WeakSubjectivityPeriod)`, yet
epoch 1 reads back source epoch 0 with a zero root, for which `IsEmpty` is false,
and only epoch 2 reads the empty sentinel. The loop calls `SetTargetData` on
`hist` in every iteration, so the buffer grown and cleared for epoch 1 is dropped
by the iteration of epoch 2, which grows `hist` afresh. -/
theorem C3_clearing_lost_when_buffer_grows :
    (∃ res,
      GetLatestEpochWritten (NewAttestationHistoryArray ⟨4, 2 ^ 64 - 1⟩ 0) = .ok 0 ∧
      MarkAllAsAttestedSinceLatestWrittenEpoch ⟨4, 2 ^ 64 - 1⟩
        (NewAttestationHistoryArray ⟨4, 2 ^ 64 - 1⟩ 0) 3
        { Source := 7, SigningRoot := List.replicate 32 1 } = .ok res ∧
      0 < 1 ∧ 1 < min 3 (0 + 4) ∧ 0 < 2 ∧ 2 < min 3 (0 + 4) ∧
      GetTargetData ⟨4, 2 ^ 64 - 1⟩ res 1
        = .ok (some { Source := 0, SigningRoot := List.replicate 32 0 }) ∧
      IsEmpty ⟨4, 2 ^ 64 - 1⟩ (some { Source := 0, SigningRoot := List.replicate 32 0 })
        = false ∧
      GetTargetData ⟨4, 2 ^ 64 - 1⟩ res 1 ≠ .ok (some (emptyHistoryData ⟨4, 2 ^ 64 - 1⟩)) ∧
      GetTargetData ⟨4, 2 ^ 64 - 1⟩ res 2 = .ok (some (emptyHistoryData ⟨4, 2 ^ 64 - 1⟩))) ∧
    (∃ res,
      GetLatestEpochWritten (NewAttestationHistoryArray ⟨54000, 2 ^ 64 - 1⟩ 0) = .ok 0 ∧
      MarkAllAsAttestedSinceLatestWrittenEpoch ⟨54000, 2 ^ 64 - 1⟩
        (NewAttestationHistoryArray ⟨54000, 2 ^ 64 - 1⟩ 0) 3
        { Source := 7, SigningRoot := List.replicate 32 1 } = .ok res ∧
      0 < 1 ∧ 1 < min 3 (0 + 54000) ∧ 0 < 2 ∧ 2 < min 3 (0 + 54000) ∧
      GetTargetData ⟨54000, 2 ^ 64 - 1⟩ res 1
        = .ok (some { Source := 0, SigningRoot := List.replicate 32 0 }) ∧
      IsEmpty ⟨54000, 2 ^ 64 - 1⟩ (some { Source := 0, SigningRoot := List.replicate 32 0 })
        = false ∧
      GetTargetData ⟨54000, 2 ^ 64 - 1⟩ res 1
        ≠ .ok (some (emptyHistoryData ⟨54000, 2 ^ 64 - 1⟩)) ∧
      GetTargetData ⟨54000, 2 ^ 64 - 1⟩ res 2
        = .ok (some (emptyHistoryData ⟨54000, 2 ^ 64 - 1⟩))) :=
  ⟨⟨_, by decide, rfl, by decide, by decide, by decide, by decide, by decide, by decide,
      by decide, by decide⟩,
    ⟨_, by decide, rfl, by decide, by decide, by decide, by decide, by decide, by decide,
      by decide, by decide⟩⟩

/-- C4. Wraparound clearing: let `hist` be the result of
`MarkAllAsAttestedSinceLatestWrittenEpoch(h0, e1, d1)` for a well-formed `h0`
whose latest epoch written is at most `e1` and an entry `d1` with a 32-byte
root and a source other than `FarFutureEpoch`; `hist` holds `d1` at `e1`. For
every target `e3 > e1 + WeakSubjectivityPeriod` in the other slots, and every
entry `d3`, the read at `e1` after
`MarkAllAsAttestedSinceLatestWrittenEpoch(hist, e3, d3)` returns an entry whose
source is `FarFutureEpoch`, for which `IsEmpty` is true, and which is not `d1`. -/
theorem C4_wraparound_clearing (cfg : BeaconConfig) (hv : cfg.valid) (h0 : EncHistoryData)
    (hw0 : WellFormed h0) (L0 e1 e3 : Nat) (d1 d3 : HistoryData)
    (hL0 : GetLatestEpochWritten h0 = .ok L0) (hle : L0 ≤ e1)
    (hr1 : d1.SigningRoot.length = 32) (hs64 : d1.Source < 2 ^ 64)
    (hs1 : d1.Source ≠ cfg.FarFutureEpoch)
    (he3 : e1 + cfg.WeakSubjectivityPeriod < e3) (h64 : e3 < 2 ^ 64)
    (hne : e3 % cfg.WeakSubjectivityPeriod ≠ e1 % cfg.WeakSubjectivityPeriod) :
    ∃ hist res e, MarkAllAsAttestedSinceLatestWrittenEpoch cfg h0 e1 d1 = .ok hist ∧
      GetTargetData cfg hist e1 = .ok (some d1) ∧
      MarkAllAsAttestedSinceLatestWrittenEpoch cfg hist e3 d3 = .ok res ∧
      GetTargetData cfg res e1 = .ok (some e) ∧
      e.Source = cfg.FarFutureEpoch ∧ IsEmpty cfg (some e) = true ∧ e ≠ d1 := by
  -- the first write: `hist` is well-formed, its header is `e1`, it holds the slot of `e1`
  have hfirst : ∃ hist, MarkAllAsAttestedSinceLatestWrittenEpoch cfg h0 e1 d1 = .ok hist ∧
      WellFormed hist ∧ GetLatestEpochWritten hist = .ok e1 ∧
      slotOffset cfg e1 + 48 ≤ hist.length ∧ GetTargetData cfg hist e1 = .ok (some d1) := by
    by_cases hlt : L0 < e1
    · obtain ⟨cur, hwc, _, _, _, hres⟩ := MarkAll_forward hv hw0 hL0 hlt d1
      have hwh := wellFormed_writeHeader hwc (Uint64ToBytesLittleEndian e1)
      refine ⟨_, hres, wellFormed_putEntry hwh e1 d1, ?_, ?_,
        GetTargetData_putEntry_self hv hwh e1 d1 hs64 hr1⟩
      · rw [GetLatestEpochWritten_putEntry hwh, GetLatestEpochWritten_writeHeader hwc (by omega)]
      · rw [putEntry_length]; omega
    · have heq : L0 = e1 := by omega
      subst heq
      refine ⟨_, MarkAll_past hv hw0 hL0 (le_refl _) d1, wellFormed_putEntry hw0 L0 d1, ?_, ?_,
        GetTargetData_putEntry_self hv hw0 L0 d1 hs64 hr1⟩
      · rw [GetLatestEpochWritten_putEntry hw0, hL0]
      · rw [putEntry_length]; omega
  obtain ⟨hist, hh, hwh, hLh, hin, hg1⟩ := hfirst
  have h0lt := hv.1
  have hmod : (e1 + cfg.WeakSubjectivityPeriod) % cfg.WeakSubjectivityPeriod
      = e1 % cfg.WeakSubjectivityPeriod := Nat.add_mod_right _ _
  have hoff : slotOffset cfg (e1 + cfg.WeakSubjectivityPeriod) = slotOffset cfg e1 := by
    rw [slotOffset_eq, slotOffset_eq, hmod]
  obtain ⟨res, hres, hget⟩ := MarkAll_forward_cleared hv hwh hLh (by omega) d3
    (k := e1 + cfg.WeakSubjectivityPeriod) (by omega) he3
    (by rw [u64_of_lt (by omega)]) (by rw [hmod]; exact fun h => hne h.symm)
    (by rw [hoff]; exact hin)
  have hget1 : GetTargetData cfg res e1 = .ok (some
      { Source := cfg.FarFutureEpoch,
        SigningRoot := (entryAt hist (slotOffset cfg e1)).SigningRoot }) := by
    have hwr' : WellFormed res := by
      obtain ⟨r', hr', hwr''⟩ := MarkAll_ok hv hwh e3 d3
      rw [hres] at hr'
      injection hr' with hr'
      rw [hr']; exact hwr''
    rw [GetTargetData_eq hv hwr'] at hget ⊢
    rw [hoff] at hget
    exact hget
  refine ⟨hist, res, _, hh, hg1, hres, hget1, rfl, by simp [IsEmpty], ?_⟩
  intro hcon
  apply hs1
  rw [← hcon]

theorem C4_wraparound_clearing_witness :
    ∃ hist res e, MarkAllAsAttestedSinceLatestWrittenEpoch ⟨2, 2 ^ 64 - 1⟩
        (List.replicate 8 0) 0 { Source := 1, SigningRoot := List.replicate 32 1 } = .ok hist ∧
      GetTargetData ⟨2, 2 ^ 64 - 1⟩ hist 0
        = .ok (some { Source := 1, SigningRoot := List.replicate 32 1 }) ∧
      MarkAllAsAttestedSinceLatestWrittenEpoch ⟨2, 2 ^ 64 - 1⟩ hist 3
        { Source := 2, SigningRoot := List.replicate 32 2 } = .ok res ∧
      GetTargetData ⟨2, 2 ^ 64 - 1⟩ res 0 = .ok (some e) ∧
      e.Source = 2 ^ 64 - 1 ∧ IsEmpty ⟨2, 2 ^ 64 - 1⟩ (some e) = true ∧
      e ≠ { Source := 1, SigningRoot := List.replicate 32 1 } :=
  C4_wraparound_clearing ⟨2, 2 ^ 64 - 1⟩ (by decide) (List.replicate 8 0) (by decide) 0 0 3
    { Source := 1, SigningRoot := List.replicate 32 1 }
    { Source := 2, SigningRoot := List.replicate 32 2 }
    (by decide) (by decide) (by decide) (by decide) (by decide) (by decide) (by decide)
    (by decide)

set_option maxRecDepth 100000 in
/-- C5, as stated, fails: with a period of 4, the history `h1` obtained from a
fresh history by a forward write at target 5 has latest epoch written 5 and holds
the slots 0 and 1 only. The past-epoch write at target 3 grows it, and epoch 2,
which `h1` reports as no data, reads back from the result as an entry. -/
theorem C5_past_write_frame_counterexample :
    ∃ h1 res,
      MarkAllAsAttestedSinceLatestWrittenEpoch ⟨4, 2 ^ 64 - 1⟩
        (NewAttestationHistoryArray ⟨4, 2 ^ 64 - 1⟩ 0) 5
        { Source := 7, SigningRoot := List.replicate 32 1 } = .ok h1 ∧
      GetLatestEpochWritten h1 = .ok 5 ∧ 3 ≤ 5 ∧ 2 % 4 ≠ 3 % 4 ∧
      MarkAllAsAttestedSinceLatestWrittenEpoch ⟨4, 2 ^ 64 - 1⟩ h1 3
        { Source := 7, SigningRoot := List.replicate 32 1 } = .ok res ∧
      GetTargetData ⟨4, 2 ^ 64 - 1⟩ h1 2 = .ok none ∧
      GetTargetData ⟨4, 2 ^ 64 - 1⟩ res 2
        = .ok (some { Source := 0, SigningRoot := List.replicate 32 0 }) ∧
      GetTargetData ⟨4, 2 ^ 64 - 1⟩ res 2 ≠ GetTargetData ⟨4, 2 ^ 64 - 1⟩ h1 2 :=
  ⟨_, _, rfl, by decide, by decide, by decide, rfl, by decide, by decide, by decide⟩

/-- C5, amended. Past-epoch write: for a well-formed `hist` with latest epoch
written `L`, an incoming target `T <= L` and an entry `d` with a 32-byte root, the
result `res` of `MarkAllAsAttestedSinceLatestWrittenEpoch(hist, T, d)` has latest
epoch written `L`, reads back `d` at `T`, and for every epoch `u` in another
slot than `T`, unless the slot of `u` lies outside `hist` and below the slot of
`T`, `GetTargetData(res, u)` equals `GetTargetData(hist, u)`. -/
theorem C5_past_write_frame (cfg : BeaconConfig) (hv : cfg.valid) (hist : EncHistoryData)
    (hw : WellFormed hist) (L T : Nat) (hL : GetLatestEpochWritten hist = .ok L)
    (hT : T ≤ L) (d : HistoryData) (hs : d.Source < 2 ^ 64)
    (hr : d.SigningRoot.length = 32) :
    ∃ res, MarkAllAsAttestedSinceLatestWrittenEpoch cfg hist T d = .ok res ∧
      GetLatestEpochWritten res = .ok L ∧
      GetTargetData cfg res T = .ok (some d) ∧
      ∀ u, u % cfg.WeakSubjectivityPeriod ≠ T % cfg.WeakSubjectivityPeriod →
        ¬ (hist.length < 8 + (u % cfg.WeakSubjectivityPeriod + 1) * historySize ∧
          u % cfg.WeakSubjectivityPeriod < T % cfg.WeakSubjectivityPeriod) →
        GetTargetData cfg res u = GetTargetData cfg hist u := by
  refine ⟨_, MarkAll_past hv hw hL hT d, ?_, GetTargetData_putEntry_self hv hw T d hs hr, ?_⟩
  · rw [GetLatestEpochWritten_putEntry hw, hL]
  · intro u hne hgap
    apply GetTargetData_putEntry_other hv hw T u d hne
    rw [slotOffset_eq]
    rw [historySize_eq] at hgap
    omega

theorem C5_past_write_frame_witness :
    ∃ res, MarkAllAsAttestedSinceLatestWrittenEpoch ⟨4, 2 ^ 64 - 1⟩
        (5 :: List.replicate 103 0) 1 { Source := 7, SigningRoot := List.replicate 32 1 }
        = .ok res ∧
      GetLatestEpochWritten res = .ok 5 ∧
      GetTargetData ⟨4, 2 ^ 64 - 1⟩ res 1
        = .ok (some { Source := 7, SigningRoot := List.replicate 32 1 }) ∧
      GetTargetData ⟨4, 2 ^ 64 - 1⟩ res 0
        = GetTargetData ⟨4, 2 ^ 64 - 1⟩ (5 :: List.replicate 103 0) 0 ∧
      GetTargetData ⟨4, 2 ^ 64 - 1⟩ res 3
        = GetTargetData ⟨4, 2 ^ 64 - 1⟩ (5 :: List.replicate 103 0) 3 :=
  match C5_past_write_frame ⟨4, 2 ^ 64 - 1⟩ (by decide) (5 :: List.replicate 103 0)
      (by decide) 5 1 (by decide) (by decide)
      { Source := 7, SigningRoot := List.replicate 32 1 } (by decide) (by decide) with
  | ⟨res, h1, h2, h3, h4⟩ =>
    ⟨res, h1, h2, h3, h4 0 (by decide) (by decide), h4 3 (by decide) (by decide)⟩


/-- C6. Forward write advances the header: for a well-formed `hist` with latest
epoch written `L`, an incoming target `T > L` and an entry `{s, r}` with a
32-byte `r`, `MarkAllAsAttestedSinceLatestWrittenEpoch(hist, T, {s, r})`
succeeds with a result whose latest epoch written is `T` and whose entry at `T`
is `{Source: s, SigningRoot: r}`. -/
theorem C6_forward_write_advances_header (cfg : BeaconConfig) (hv : cfg.valid)
    (hist : EncHistoryData) (hw : WellFormed hist) (L T s : Nat) (r : List Byte)
    (hL : GetLatestEpochWritten hist = .ok L) (hT : L < T) (hT64 : T < 2 ^ 64)
    (hs : s < 2 ^ 64) (hr : r.length = 32) :
    ∃ res, MarkAllAsAttestedSinceLatestWrittenEpoch cfg hist T
        { Source := s, SigningRoot := r } = .ok res ∧
      GetLatestEpochWritten res = .ok T ∧
      GetTargetData cfg res T = .ok (some { Source := s, SigningRoot := r }) := by
  obtain ⟨cur, hwc, _, _, _, hres⟩ := MarkAll_forward hv hw hL hT { Source := s, SigningRoot := r }
  have hwh := wellFormed_writeHeader hwc (Uint64ToBytesLittleEndian T)
  refine ⟨_, hres, ?_, GetTargetData_putEntry_self hv hwh T _ hs hr⟩
  rw [GetLatestEpochWritten_putEntry hwh, GetLatestEpochWritten_writeHeader hwc hT64]

theorem C6_forward_write_advances_header_witness :
    ∃ res, MarkAllAsAttestedSinceLatestWrittenEpoch ⟨4, 2 ^ 64 - 1⟩ (List.replicate 56 0) 3
        { Source := 7, SigningRoot := List.replicate 32 1 } = .ok res ∧
      GetLatestEpochWritten res = .ok 3 ∧
      GetTargetData ⟨4, 2 ^ 64 - 1⟩ res 3
        = .ok (some { Source := 7, SigningRoot := List.replicate 32 1 }) :=
  C6_forward_write_advances_header ⟨4, 2 ^ 64 - 1⟩ (by decide) (List.replicate 56 0)
    (by decide) 0 3 7 (List.replicate 32 1) (by decide) (by decide) (by decide) (by decide)
    (by decide)

/-- C7. Malformed buffers are rejected and only those: for every byte buffer
`hd`, the empty (`nil`) one included, and all arguments, each of
`GetLatestEpochWritten`, `SetLatestEpochWritten`, `GetTargetData`, `SetTargetData`
and `MarkAllAsAttestedSinceLatestWrittenEpoch` returns an error if and only if `hd`
is shorter than the 8-byte header or `len(hd) - 8` is not a multiple of the entry
size. -/
theorem C7_error_iff_malformed (cfg : BeaconConfig) (hv : cfg.valid) (hd : EncHistoryData)
    (x t T : Nat) (d att : HistoryData) :
    ((∃ e, GetLatestEpochWritten hd = .error e) ↔
        (hd.length < 8 ∨ (hd.length - 8) % historySize ≠ 0)) ∧
      ((∃ e, SetLatestEpochWritten hd x = .error e) ↔
        (hd.length < 8 ∨ (hd.length - 8) % historySize ≠ 0)) ∧
      ((∃ e, GetTargetData cfg hd t = .error e) ↔
        (hd.length < 8 ∨ (hd.length - 8) % historySize ≠ 0)) ∧
      ((∃ e, SetTargetData cfg hd t d = .error e) ↔
        (hd.length < 8 ∨ (hd.length - 8) % historySize ≠ 0)) ∧
      ((∃ e, MarkAllAsAttestedSinceLatestWrittenEpoch cfg hd T att = .error e) ↔
        (hd.length < 8 ∨ (hd.length - 8) % historySize ≠ 0)) := by
  have key : (hd.length < 8 ∨ (hd.length - 8) % historySize ≠ 0) ↔ ¬ WellFormed hd := by
    rw [wellFormed_iff, historySize_eq]; omega
  rw [key]
  by_cases hw : WellFormed hd
  · have hn : ¬ ¬ WellFormed hd := fun h => h hw
    refine ⟨⟨?_, fun h => absurd h hn⟩, ⟨?_, fun h => absurd h hn⟩, ⟨?_, fun h => absurd h hn⟩,
      ⟨?_, fun h => absurd h hn⟩, ⟨?_, fun h => absurd h hn⟩⟩
    · rintro ⟨e, he⟩
      rw [GetLatestEpochWritten_eq hw] at he
      cases he
    · rintro ⟨e, he⟩
      rw [SetLatestEpochWritten_eq hw] at he
      cases he
    · rintro ⟨e, he⟩
      rw [GetTargetData_eq hv hw] at he
      split at he <;> cases he
    · rintro ⟨e, he⟩
      rw [SetTargetData_eq hv hw] at he
      cases he
    · rintro ⟨e, he⟩
      obtain ⟨res, hres, _⟩ := MarkAll_ok hv hw T att
      rw [hres] at he
      cases he
  · exact ⟨⟨fun _ => hw, fun _ => GetLatestEpochWritten_error hw⟩,
      ⟨fun _ => hw, fun _ => SetLatestEpochWritten_error hw x⟩,
      ⟨fun _ => hw, fun _ => GetTargetData_error cfg hw t⟩,
      ⟨fun _ => hw, fun _ => SetTargetData_error cfg hw t d⟩,
      ⟨fun _ => hw, fun _ => MarkAll_error cfg hw T att⟩⟩

theorem C7_error_iff_malformed_witness :
    ((∃ e, GetLatestEpochWritten (List.replicate 9 0) = .error e) ↔
        ((List.replicate 9 (0 : Byte)).length < 8 ∨
          ((List.replicate 9 (0 : Byte)).length - 8) % historySize ≠ 0)) ∧
      ((∃ e, SetLatestEpochWritten (List.replicate 9 0) 1 = .error e) ↔
        ((List.replicate 9 (0 : Byte)).length < 8 ∨
          ((List.replicate 9 (0 : Byte)).length - 8) % historySize ≠ 0)) ∧
      ((∃ e, GetTargetData ⟨4, 2 ^ 64 - 1⟩ (List.replicate 9 0) 2 = .error e) ↔
        ((List.replicate 9 (0 : Byte)).length < 8 ∨
          ((List.replicate 9 (0 : Byte)).length - 8) % historySize ≠ 0)) ∧
      ((∃ e, SetTargetData ⟨4, 2 ^ 64 - 1⟩ (List.replicate 9 0) 2
          { Source := 7, SigningRoot := [] } = .error e) ↔
        ((List.replicate 9 (0 : Byte)).length < 8 ∨
          ((List.replicate 9 (0 : Byte)).length - 8) % historySize ≠ 0)) ∧
      ((∃ e, MarkAllAsAttestedSinceLatestWrittenEpoch ⟨4, 2 ^ 64 - 1⟩ (List.replicate 9 0) 3
          { Source := 7, SigningRoot := [] } = .error e) ↔
        ((List.replicate 9 (0 : Byte)).length < 8 ∨
          ((List.replicate 9 (0 : Byte)).length - 8) % historySize ≠ 0)) :=
  C7_error_iff_malformed ⟨4, 2 ^ 64 - 1⟩ (by decide) (List.replicate 9 0) 1 2 3
    { Source := 7, SigningRoot := [] } { Source := 7, SigningRoot := [] }

/-- C8. Size invariant: `NewAttestationHistoryArray(t)` is well-formed for every
`t`, and on a well-formed buffer the buffers returned by `SetLatestEpochWritten`,
`SetTargetData` and `MarkAllAsAttestedSinceLatestWrittenEpoch` are well-formed
again: `assertSize` succeeds on them and their length is `8 + k * historySize` for
some `k`. -/
theorem C8_size_invariant (cfg : BeaconConfig) (hv : cfg.valid) (t0 : Nat)
    (hd : EncHistoryData) (hw : WellFormed hd) (x t T : Nat) (d att : HistoryData) :
    (assertSize (NewAttestationHistoryArray cfg t0) = .ok () ∧
        ∃ k, (NewAttestationHistoryArray cfg t0).length = 8 + k * historySize) ∧
      (∃ res, SetLatestEpochWritten hd x = .ok res ∧ assertSize res = .ok () ∧
        ∃ k, res.length = 8 + k * historySize) ∧
      (∃ res, SetTargetData cfg hd t d = .ok res ∧ assertSize res = .ok () ∧
        ∃ k, res.length = 8 + k * historySize) ∧
      (∃ res, MarkAllAsAttestedSinceLatestWrittenEpoch cfg hd T att = .ok res ∧
        assertSize res = .ok () ∧ ∃ k, res.length = 8 + k * historySize) := by
  have hnew := wellFormed_New hv t0
  have hset := wellFormed_writeHeader hw (Uint64ToBytesLittleEndian x)
  have hput : WellFormed (putEntry hd (slotOffset cfg t) d) := wellFormed_putEntry hw t d
  obtain ⟨res, hres, hwr⟩ := MarkAll_ok hv hw T att
  exact ⟨⟨assertSize_of_wellFormed hnew, (wellFormed_iff_exists _).1 hnew⟩,
    ⟨_, SetLatestEpochWritten_eq hw x, assertSize_of_wellFormed hset,
      (wellFormed_iff_exists _).1 hset⟩,
    ⟨_, SetTargetData_eq hv hw t d, assertSize_of_wellFormed hput,
      (wellFormed_iff_exists _).1 hput⟩,
    ⟨res, hres, assertSize_of_wellFormed hwr, (wellFormed_iff_exists _).1 hwr⟩⟩

theorem C8_size_invariant_witness :
    (assertSize (NewAttestationHistoryArray ⟨4, 2 ^ 64 - 1⟩ 6) = .ok () ∧
        ∃ k, (NewAttestationHistoryArray ⟨4, 2 ^ 64 - 1⟩ 6).length = 8 + k * historySize) ∧
      (∃ res, SetLatestEpochWritten (List.replicate 56 0) 9 = .ok res ∧
        assertSize res = .ok () ∧ ∃ k, res.length = 8 + k * historySize) ∧
      (∃ res, SetTargetData ⟨4, 2 ^ 64 - 1⟩ (List.replicate 56 0) 2
          { Source := 7, SigningRoot := List.replicate 32 1 } = .ok res ∧
        assertSize res = .ok () ∧ ∃ k, res.length = 8 + k * historySize) ∧
      (∃ res, MarkAllAsAttestedSinceLatestWrittenEpoch ⟨4, 2 ^ 64 - 1⟩ (List.replicate 56 0) 3
          { Source := 7, SigningRoot := List.replicate 32 1 } = .ok res ∧
        assertSize res = .ok () ∧ ∃ k, res.length = 8 + k * historySize) :=
  C8_size_invariant ⟨4, 2 ^ 64 - 1⟩ (by decide) 6 (List.replicate 56 0) (by decide) 9 2 3
    { Source := 7, SigningRoot := List.replicate 32 1 }
    { Source := 7, SigningRoot := List.replicate 32 1 }

/-- C9. Reading an unwritten slot is not an error: on a well-formed buffer,
`GetTargetData(hd, t)` returns no data (`nil, nil`) exactly when `hd` is shorter
than `8 + ((t mod WeakSubjectivityPeriod) + 1) * historySize`, and otherwise
returns an entry whose signing root has 32 bytes. -/
theorem C9_unwritten_slot_is_no_data (cfg : BeaconConfig) (hv : cfg.valid)
    (hd : EncHistoryData) (hw : WellFormed hd) (t : Nat) :
    (GetTargetData cfg hd t = .ok none ↔
        hd.length < 8 + ((t % cfg.WeakSubjectivityPeriod) + 1) * historySize) ∧
      (¬ hd.length < 8 + ((t % cfg.WeakSubjectivityPeriod) + 1) * historySize →
        ∃ e, GetTargetData cfg hd t = .ok (some e) ∧ e.SigningRoot.length = 32) := by
  have ho : slotOffset cfg t + 48 = 8 + ((t % cfg.WeakSubjectivityPeriod) + 1) * historySize := by
    rw [slotOffset_eq, historySize_eq]; omega
  rw [GetTargetData_eq hv hw, ho]
  constructor
  · constructor
    · intro h
      by_contra hn
      rw [if_neg hn] at h
      cases h
    · intro h
      rw [if_pos h]
  · intro hn
    rw [if_neg hn]
    exact ⟨_, rfl, entryAt_root_length (by omega)⟩

theorem C9_unwritten_slot_is_no_data_witness :
    GetTargetData ⟨3, 2 ^ 64 - 1⟩ (List.replicate 56 0) 1 = .ok none ∧
      ∃ e, GetTargetData ⟨3, 2 ^ 64 - 1⟩ (List.replicate 56 0) 0 = .ok (some e) ∧
        e.SigningRoot.length = 32 :=
  ⟨(C9_unwritten_slot_is_no_data ⟨3, 2 ^ 64 - 1⟩ (by decide) (List.replicate 56 0)
      (by decide) 1).1.2 (by decide),
    (C9_unwritten_slot_is_no_data ⟨3, 2 ^ 64 - 1⟩ (by decide) (List.replicate 56 0)
      (by decide) 0).2 (by decide)⟩

/-- C10. Fresh history is all sentinel: `h = NewAttestationHistoryArray(t)` has
latest epoch written 0; at every epoch `i` with
`i mod WeakSubjectivityPeriod <= t mod WeakSubjectivityPeriod` it reads back the
empty sentinel (source `FarFutureEpoch`, root 32 zero bytes, `IsEmpty` true); at
every epoch `i` with `i mod WeakSubjectivityPeriod > t mod WeakSubjectivityPeriod`
it returns no data. -/
theorem C10_fresh_history_all_sentinel (cfg : BeaconConfig) (hv : cfg.valid) (t i : Nat) :
    GetLatestEpochWritten (NewAttestationHistoryArray cfg t) = .ok 0 ∧
      (i % cfg.WeakSubjectivityPeriod ≤ t % cfg.WeakSubjectivityPeriod →
        GetTargetData cfg (NewAttestationHistoryArray cfg t) i
            = .ok (some { Source := cfg.FarFutureEpoch, SigningRoot := List.replicate 32 0 }) ∧
          IsEmpty cfg (some { Source := cfg.FarFutureEpoch, SigningRoot := List.replicate 32 0 })
            = true) ∧
      (t % cfg.WeakSubjectivityPeriod < i % cfg.WeakSubjectivityPeriod →
        GetTargetData cfg (NewAttestationHistoryArray cfg t) i = .ok none) := by
  have hwn := wellFormed_New hv t
  have hlen := NewAttestationHistoryArray_length hv t
  obtain ⟨_, hI1, hI2⟩ := newLoop_spec hv t (t % cfg.WeakSubjectivityPeriod + 1) 0 _
    (wellFormed_replicate (t % cfg.WeakSubjectivityPeriod + 1)) (List.length_replicate _ _)
  rw [← NewAttestationHistoryArray_eq hv] at hI1 hI2
  refine ⟨?_, ?_, ?_⟩
  · rw [GetLatestEpochWritten_eq hwn]
    have hz : slice (NewAttestationHistoryArray cfg t) 0 8 = List.replicate 8 0 := by
      have := slice_eq_of_getElem? (l := NewAttestationHistoryArray cfg t)
        (s := List.replicate 8 0) (a := 0) (by
          intro j hj
          rw [List.length_replicate] at hj
          rw [hI1 (0 + j) (fun k _ _ _ => by omega), List.getElem?_replicate,
            List.getElem?_replicate, if_pos (by omega), if_pos hj])
      rwa [List.length_replicate] at this
    rw [hz]
    rfl
  · intro hle
    refine ⟨?_, by simp [IsEmpty]⟩
    rw [GetTargetData_eq hv hwn, hlen, slotOffset_eq, if_neg (by
      have : i % cfg.WeakSubjectivityPeriod * 48 ≤ t % cfg.WeakSubjectivityPeriod * 48 :=
        Nat.mul_le_mul_right 48 hle
      omega), hI2 _ (Nat.zero_le _) (by omega) hle]
    rfl
  · intro hlt
    rw [GetTargetData_eq hv hwn, hlen, slotOffset_eq, if_pos (by
      have : (t % cfg.WeakSubjectivityPeriod + 1) * 48 ≤ i % cfg.WeakSubjectivityPeriod * 48 :=
        Nat.mul_le_mul_right 48 hlt
      omega)]

theorem C10_fresh_history_all_sentinel_witness :
    GetLatestEpochWritten (NewAttestationHistoryArray ⟨4, 2 ^ 64 - 1⟩ 2) = .ok 0 ∧
      (GetTargetData ⟨4, 2 ^ 64 - 1⟩ (NewAttestationHistoryArray ⟨4, 2 ^ 64 - 1⟩ 2) 1
          = .ok (some { Source := 2 ^ 64 - 1, SigningRoot := List.replicate 32 0 }) ∧
        IsEmpty ⟨4, 2 ^ 64 - 1⟩
          (some { Source := 2 ^ 64 - 1, SigningRoot := List.replicate 32 0 }) = true) ∧
      GetTargetData ⟨4, 2 ^ 64 - 1⟩ (NewAttestationHistoryArray ⟨4, 2 ^ 64 - 1⟩ 2) 3
        = .ok none :=
  ⟨(C10_fresh_history_all_sentinel ⟨4, 2 ^ 64 - 1⟩ (by decide) 2 1).1,
    (C10_fresh_history_all_sentinel ⟨4, 2 ^ 64 - 1⟩ (by decide) 2 1).2.1 (by decide),
    (C10_fresh_history_all_sentinel ⟨4, 2 ^ 64 - 1⟩ (by decide) 2 3).2.2 (by decide)⟩


/-! ## Reading a fresh history -/

theorem GetLatestEpochWritten_New {cfg : BeaconConfig} (hv : cfg.valid) (t : Nat) :
    GetLatestEpochWritten (NewAttestationHistoryArray cfg t) = .ok 0 := by
  obtain ⟨_, hI1, _⟩ := newLoop_spec hv t (t % cfg.WeakSubjectivityPeriod + 1) 0 _
    (wellFormed_replicate (t % cfg.WeakSubjectivityPeriod + 1)) (List.length_replicate _ _)
  rw [← NewAttestationHistoryArray_eq hv] at hI1
  rw [GetLatestEpochWritten_eq (wellFormed_New hv t)]
  have hz : slice (NewAttestationHistoryArray cfg t) 0 8 = List.replicate 8 0 := by
    have := slice_eq_of_getElem? (l := NewAttestationHistoryArray cfg t)
      (s := List.replicate 8 0) (a := 0) (by
        intro j hj
        rw [List.length_replicate] at hj
        rw [hI1 (0 + j) (fun k _ _ _ => by omega), List.getElem?_replicate,
          List.getElem?_replicate, if_pos (by omega), if_pos hj])
    rwa [List.length_replicate] at this
  rw [hz]
  rfl

theorem entryAt_New {cfg : BeaconConfig} (hv : cfg.valid) (t k : Nat)
    (hk : k ≤ t % cfg.WeakSubjectivityPeriod) :
    entryAt (NewAttestationHistoryArray cfg t) (8 + k * 48) = emptyHistoryData cfg := by
  obtain ⟨_, _, hI2⟩ := newLoop_spec hv t (t % cfg.WeakSubjectivityPeriod + 1) 0 _
    (wellFormed_replicate (t % cfg.WeakSubjectivityPeriod + 1)) (List.length_replicate _ _)
  rw [← NewAttestationHistoryArray_eq hv] at hI2
  exact hI2 k (Nat.zero_le _) (by omega) hk

/-! ## Further claims on the codec -/

/-- C11, as stated, fails: with a period of 54000 the initial history has 56
bytes, the header and one entry, not `8 + 54000 * 40`; with a period of 4 it has
56 bytes as well, not `8 + 4 * 40`. -/
theorem C11_initial_history_length_counterexample :
    (NewAttestationHistoryArray ⟨54000, 2 ^ 64 - 1⟩ 0).length = 56 ∧
      (NewAttestationHistoryArray ⟨54000, 2 ^ 64 - 1⟩ 0).length ≠ 8 + 54000 * 40 ∧
      (NewAttestationHistoryArray ⟨4, 2 ^ 64 - 1⟩ 0).length = 56 ∧
      (NewAttestationHistoryArray ⟨4, 2 ^ 64 - 1⟩ 0).length ≠ 8 + 4 * 40 := by
  decide

/-- C11, amended. Size of the initial history: `NewAttestationHistoryArray(0)`
returns a buffer of length `8 + historySize = 56`, the header and the one entry of
epoch 0, whose latest epoch written is 0 and in which every entry that can be read
has the source epoch `FarFutureEpoch`; the entry of epoch 0 is the empty
sentinel. -/
theorem C11_initial_history (cfg : BeaconConfig) (hv : cfg.valid) :
    (NewAttestationHistoryArray cfg 0).length = 8 + historySize ∧
      (NewAttestationHistoryArray cfg 0).length = 56 ∧
      GetLatestEpochWritten (NewAttestationHistoryArray cfg 0) = .ok 0 ∧
      GetTargetData cfg (NewAttestationHistoryArray cfg 0) 0
        = .ok (some (emptyHistoryData cfg)) ∧
      ∀ i e, GetTargetData cfg (NewAttestationHistoryArray cfg 0) i = .ok (some e) →
        e.Source = cfg.FarFutureEpoch := by
  have hlen : (NewAttestationHistoryArray cfg 0).length = 56 := by
    rw [NewAttestationHistoryArray_length hv, Nat.zero_mod]
  have hw := wellFormed_New hv 0
  have hent := entryAt_New hv 0 0 (Nat.zero_le _)
  refine ⟨hlen, hlen, GetLatestEpochWritten_New hv 0, ?_, ?_⟩
  · rw [GetTargetData_eq hv hw, hlen, slotOffset_eq, Nat.zero_mod, if_neg (by omega)]
    exact congrArg (fun x => Except.ok (some x)) hent
  · intro i e he
    rw [GetTargetData_eq hv hw, hlen, slotOffset_eq] at he
    by_cases hi : i % cfg.WeakSubjectivityPeriod = 0
    · rw [hi, if_neg (by omega)] at he
      injection he with he
      injection he with he
      rw [← he]
      exact congrArg HistoryData.Source hent
    · rw [if_pos (by omega)] at he
      injection he with he
      cases he

theorem C11_initial_history_witness :
    (NewAttestationHistoryArray ⟨4, 2 ^ 64 - 1⟩ 0).length = 8 + historySize ∧
      (NewAttestationHistoryArray ⟨4, 2 ^ 64 - 1⟩ 0).length = 56 ∧
      GetLatestEpochWritten (NewAttestationHistoryArray ⟨4, 2 ^ 64 - 1⟩ 0) = .ok 0 ∧
      GetTargetData ⟨4, 2 ^ 64 - 1⟩ (NewAttestationHistoryArray ⟨4, 2 ^ 64 - 1⟩ 0) 0
        = .ok (some (emptyHistoryData ⟨4, 2 ^ 64 - 1⟩)) ∧
      ∀ i e, GetTargetData ⟨4, 2 ^ 64 - 1⟩ (NewAttestationHistoryArray ⟨4, 2 ^ 64 - 1⟩ 0) i
          = .ok (some e) →
        e.Source = 2 ^ 64 - 1 :=
  C11_initial_history ⟨4, 2 ^ 64 - 1⟩ (by decide)

/-- C12. Concrete wraparound scenario: for 32-byte roots `r1 != r2`, writing
`{1, r1}` at target 0 into `NewAttestationHistoryArray(0)` and then `{2, r2}` at
target `WeakSubjectivityPeriod` succeeds both times; the latest epoch written is
then `WeakSubjectivityPeriod`, and the reads at `WeakSubjectivityPeriod` and at 0
both return `{2, r2}`, so the entry `{1, r1}`, which the first history returned at
epoch 0, is no longer readable. -/
theorem C12_concrete_wraparound (cfg : BeaconConfig) (hv : cfg.valid) (r1 r2 : List Byte)
    (hr1 : r1.length = 32) (hr2 : r2.length = 32) (hne : r1 ≠ r2) :
    ∃ h1 h2,
      MarkAllAsAttestedSinceLatestWrittenEpoch cfg (NewAttestationHistoryArray cfg 0) 0
        { Source := 1, SigningRoot := r1 } = .ok h1 ∧
      GetTargetData cfg h1 0 = .ok (some { Source := 1, SigningRoot := r1 }) ∧
      MarkAllAsAttestedSinceLatestWrittenEpoch cfg h1 cfg.WeakSubjectivityPeriod
        { Source := 2, SigningRoot := r2 } = .ok h2 ∧
      GetLatestEpochWritten h2 = .ok cfg.WeakSubjectivityPeriod ∧
      GetTargetData cfg h2 cfg.WeakSubjectivityPeriod
        = .ok (some { Source := 2, SigningRoot := r2 }) ∧
      GetTargetData cfg h2 0 = .ok (some { Source := 2, SigningRoot := r2 }) ∧
      GetTargetData cfg h2 0 ≠ .ok (some { Source := 1, SigningRoot := r1 }) := by
  have hw0 := wellFormed_New hv 0
  have hL0 := GetLatestEpochWritten_New hv 0
  have hw1 : WellFormed (putEntry (NewAttestationHistoryArray cfg 0) (slotOffset cfg 0)
      { Source := 1, SigningRoot := r1 }) := wellFormed_putEntry hw0 0 _
  have hL1 : GetLatestEpochWritten (putEntry (NewAttestationHistoryArray cfg 0)
      (slotOffset cfg 0) { Source := 1, SigningRoot := r1 }) = .ok 0 := by
    rw [GetLatestEpochWritten_putEntry hw0, hL0]
  have hwsp : cfg.WeakSubjectivityPeriod < 2 ^ 64 := by
    have := hv.2.1
    simp only [latestEpochWrittenSize_eq, historySize_eq] at this
    omega
  obtain ⟨cur, hwc, _, _, _, hres⟩ := MarkAll_forward hv hw1 hL1 hv.1
    { Source := 2, SigningRoot := r2 }
  have hwh := wellFormed_writeHeader hwc (Uint64ToBytesLittleEndian cfg.WeakSubjectivityPeriod)
  have hread : GetTargetData cfg (putEntry
      (writeAt cur 0 8 (Uint64ToBytesLittleEndian cfg.WeakSubjectivityPeriod))
      (slotOffset cfg cfg.WeakSubjectivityPeriod) { Source := 2, SigningRoot := r2 })
      cfg.WeakSubjectivityPeriod = .ok (some { Source := 2, SigningRoot := r2 }) :=
    GetTargetData_putEntry_self hv hwh _ _ (by norm_num) hr2
  have hoff : slotOffset cfg 0 = slotOffset cfg cfg.WeakSubjectivityPeriod := by
    rw [slotOffset_eq, slotOffset_eq, Nat.mod_self, Nat.zero_mod]
  have hread0 : GetTargetData cfg (putEntry
      (writeAt cur 0 8 (Uint64ToBytesLittleEndian cfg.WeakSubjectivityPeriod))
      (slotOffset cfg cfg.WeakSubjectivityPeriod) { Source := 2, SigningRoot := r2 }) 0
      = .ok (some { Source := 2, SigningRoot := r2 }) := by
    rw [GetTargetData_eq hv (wellFormed_putEntry hwh _ _)] at hread ⊢
    rw [hoff]
    exact hread
  refine ⟨_, _, MarkAll_past hv hw0 hL0 (le_refl _) _,
    GetTargetData_putEntry_self hv hw0 0 _ (by norm_num) hr1, hres, ?_, hread, hread0, ?_⟩
  · rw [GetLatestEpochWritten_putEntry hwh, GetLatestEpochWritten_writeHeader hwc hwsp]
  · rw [hread0]
    intro hcon
    injection hcon with hcon
    injection hcon with hcon
    injection hcon with _ hroot
    exact hne hroot.symm

theorem C12_concrete_wraparound_witness :
    ∃ h1 h2,
      MarkAllAsAttestedSinceLatestWrittenEpoch ⟨4, 2 ^ 64 - 1⟩
        (NewAttestationHistoryArray ⟨4, 2 ^ 64 - 1⟩ 0) 0
        { Source := 1, SigningRoot := List.replicate 32 1 } = .ok h1 ∧
      GetTargetData ⟨4, 2 ^ 64 - 1⟩ h1 0
        = .ok (some { Source := 1, SigningRoot := List.replicate 32 1 }) ∧
      MarkAllAsAttestedSinceLatestWrittenEpoch ⟨4, 2 ^ 64 - 1⟩ h1 4
        { Source := 2, SigningRoot := List.replicate 32 2 } = .ok h2 ∧
      GetLatestEpochWritten h2 = .ok 4 ∧
      GetTargetData ⟨4, 2 ^ 64 - 1⟩ h2 4
        = .ok (some { Source := 2, SigningRoot := List.replicate 32 2 }) ∧
      GetTargetData ⟨4, 2 ^ 64 - 1⟩ h2 0
        = .ok (some { Source := 2, SigningRoot := List.replicate 32 2 }) ∧
      GetTargetData ⟨4, 2 ^ 64 - 1⟩ h2 0
        ≠ .ok (some { Source := 1, SigningRoot := List.replicate 32 1 }) :=
  C12_concrete_wraparound ⟨4, 2 ^ 64 - 1⟩ (by decide) (List.replicate 32 1)
    (List.replicate 32 2) (by decide) (by decide) (by decide)

/-- C13. Buffers grow and never shrink: on a well-formed `hd`, the result of
`SetTargetData(hd, t, entry)` has length
`max(len(hd), 8 + ((t mod WeakSubjectivityPeriod) + 1) * historySize)`; it is never
shorter than `hd`, and has the length of `hd` whenever the slot of `t` already
lies inside `hd`. -/
theorem C13_buffers_grow_never_shrink (cfg : BeaconConfig) (hv : cfg.valid)
    (hd : EncHistoryData) (hw : WellFormed hd) (t : Nat) (entry : HistoryData) :
    ∃ res, SetTargetData cfg hd t entry = .ok res ∧
      res.length = max hd.length (8 + ((t % cfg.WeakSubjectivityPeriod) + 1) * historySize) ∧
      hd.length ≤ res.length ∧
      (8 + ((t % cfg.WeakSubjectivityPeriod) + 1) * historySize ≤ hd.length →
        res.length = hd.length) := by
  have hlen : (putEntry hd (slotOffset cfg t) entry).length
      = max hd.length (8 + ((t % cfg.WeakSubjectivityPeriod) + 1) * historySize) := by
    rw [putEntry_length, slotOffset_eq, historySize_eq]
    congr 1
    omega
  refine ⟨_, SetTargetData_eq hv hw t entry, hlen, ?_, ?_⟩
  · rw [hlen]; exact le_max_left _ _
  · intro h
    rw [hlen]; exact max_eq_left h

theorem C13_buffers_grow_never_shrink_witness :
    (∃ res, SetTargetData ⟨4, 2 ^ 64 - 1⟩ (List.replicate 56 0) 2
        { Source := 7, SigningRoot := List.replicate 32 1 } = .ok res ∧
      res.length = max (List.replicate 56 (0 : Byte)).length (8 + ((2 % 4) + 1) * historySize) ∧
      (List.replicate 56 (0 : Byte)).length ≤ res.length) ∧
    ∃ res, SetTargetData ⟨4, 2 ^ 64 - 1⟩ (List.replicate 56 0) 0
        { Source := 7, SigningRoot := List.replicate 32 1 } = .ok res ∧
      res.length = (List.replicate 56 (0 : Byte)).length :=
  ⟨match C13_buffers_grow_never_shrink ⟨4, 2 ^ 64 - 1⟩ (by decide) (List.replicate 56 0)
      (by decide) 2 { Source := 7, SigningRoot := List.replicate 32 1 } with
    | ⟨res, h1, h2, h3, _⟩ => ⟨res, h1, h2, h3⟩,
   match C13_buffers_grow_never_shrink ⟨4, 2 ^ 64 - 1⟩ (by decide) (List.replicate 56 0)
      (by decide) 0 { Source := 7, SigningRoot := List.replicate 32 1 } with
    | ⟨res, h1, _, _, h4⟩ => ⟨res, h1, h4 (by decide)⟩⟩


set_option maxRecDepth 100000 in
/-- C14, as stated, fails: with a period of 3 and a header-only buffer, writing
target epoch 3 (slot 0) gives 56 bytes, and writing target epoch 2 (slot 2)
afterwards gives 152 bytes. -/
theorem C14_previous_epoch_counterexample :
    ∃ res1 res2,
      SetTargetData ⟨3, 2 ^ 64 - 1⟩ (List.replicate 8 0) 3
        { Source := 7, SigningRoot := List.replicate 32 1 } = .ok res1 ∧
      SetTargetData ⟨3, 2 ^ 64 - 1⟩ res1 (3 - 1)
        { Source := 7, SigningRoot := List.replicate 32 1 } = .ok res2 ∧
      1 ≤ 3 ∧ res1.length = 56 ∧ res2.length = 152 ∧ res2.length ≠ res1.length :=
  ⟨_, _, rfl, rfl, by decide, by decide, by decide, by decide⟩

/-- C14, amended. Writing the previous epoch does not grow the buffer: on a
well-formed `hd`, for every target epoch `e >= 1` whose predecessor does not wrap
to a later slot (`(e - 1) mod WeakSubjectivityPeriod <= e mod
WeakSubjectivityPeriod`, which holds whenever `e mod WeakSubjectivityPeriod != 0`),
or whose predecessor's slot already lies inside `hd`, and all entries `d`, `d'`,
`SetTargetData(SetTargetData(hd, e, d), e - 1, d')` has the length of
`SetTargetData(hd, e, d)`. -/
theorem C14_previous_epoch_no_growth (cfg : BeaconConfig) (hv : cfg.valid)
    (hd : EncHistoryData) (hw : WellFormed hd) (e : Nat) (he : 1 ≤ e)
    (hslot : (e - 1) % cfg.WeakSubjectivityPeriod ≤ e % cfg.WeakSubjectivityPeriod ∨
      8 + ((e - 1) % cfg.WeakSubjectivityPeriod + 1) * historySize ≤ hd.length)
    (d d' : HistoryData) :
    (e % cfg.WeakSubjectivityPeriod ≠ 0 →
      (e - 1) % cfg.WeakSubjectivityPeriod ≤ e % cfg.WeakSubjectivityPeriod) ∧
    ∃ res1 res2, SetTargetData cfg hd e d = .ok res1 ∧
      SetTargetData cfg res1 (e - 1) d' = .ok res2 ∧ res2.length = res1.length := by
  constructor
  · intro hne
    have h0 := hv.1
    have hdm := Nat.div_add_mod e cfg.WeakSubjectivityPeriod
    have hlt : e % cfg.WeakSubjectivityPeriod < cfg.WeakSubjectivityPeriod := Nat.mod_lt _ h0
    have : (e - 1) % cfg.WeakSubjectivityPeriod = e % cfg.WeakSubjectivityPeriod - 1 := by
      have he' : e - 1 = (e % cfg.WeakSubjectivityPeriod - 1)
          + cfg.WeakSubjectivityPeriod * (e / cfg.WeakSubjectivityPeriod) := by omega
      rw [he', Nat.add_mul_mod_self_left, Nat.mod_eq_of_lt (by omega)]
    omega
  · refine ⟨_, _, SetTargetData_eq hv hw e d,
      SetTargetData_eq hv (wellFormed_putEntry hw e d) (e - 1) d', ?_⟩
    rw [putEntry_length, putEntry_length, slotOffset_eq, slotOffset_eq]
    rw [historySize_eq] at hslot
    rcases hslot with h | h
    · have : (e - 1) % cfg.WeakSubjectivityPeriod * 48 ≤ e % cfg.WeakSubjectivityPeriod * 48 :=
        Nat.mul_le_mul_right 48 h
      omega
    · omega

theorem C14_previous_epoch_no_growth_witness :
    ∃ res1 res2,
      SetTargetData ⟨3, 2 ^ 64 - 1⟩ (List.replicate 8 0) 2
        { Source := 7, SigningRoot := List.replicate 32 1 } = .ok res1 ∧
      SetTargetData ⟨3, 2 ^ 64 - 1⟩ res1 (2 - 1)
        { Source := 8, SigningRoot := List.replicate 32 2 } = .ok res2 ∧
      res2.length = res1.length :=
  (C14_previous_epoch_no_growth ⟨3, 2 ^ 64 - 1⟩ (by decide) (List.replicate 8 0) (by decide)
    2 (by decide) (Or.inl (by decide)) { Source := 7, SigningRoot := List.replicate 32 1 }
    { Source := 8, SigningRoot := List.replicate 32 2 }).2

/-- C19. Padding slots are not the sentinel: on a well-formed `hd`, for target
epochs `u`, `t` with `u mod WeakSubjectivityPeriod < t mod WeakSubjectivityPeriod`
and the slot of `u` not yet in `hd`, the read at `u` after
`SetTargetData(hd, t, entry)` returns an entry with source epoch 0 and a signing
root of 32 zero bytes, for which `IsEmpty` is false, `FarFutureEpoch` not being
0. -/
theorem C19_padding_slots_not_sentinel (cfg : BeaconConfig) (hv : cfg.valid)
    (hffe : cfg.FarFutureEpoch ≠ 0) (hd : EncHistoryData) (hw : WellFormed hd) (u t : Nat)
    (entry : HistoryData)
    (hut : u % cfg.WeakSubjectivityPeriod < t % cfg.WeakSubjectivityPeriod)
    (hout : hd.length < 8 + ((u % cfg.WeakSubjectivityPeriod) + 1) * historySize) :
    ∃ res, SetTargetData cfg hd t entry = .ok res ∧
      GetTargetData cfg res u
        = .ok (some { Source := 0, SigningRoot := List.replicate 32 0 }) ∧
      IsEmpty cfg (some { Source := 0, SigningRoot := List.replicate 32 0 }) = false := by
  rw [historySize_eq] at hout
  rw [wellFormed_iff] at hw
  have hw' : WellFormed hd := (wellFormed_iff hd).2 hw
  have hle : hd.length ≤ 8 + u % cfg.WeakSubjectivityPeriod * 48 := by omega
  have hou : slotOffset cfg u = 8 + u % cfg.WeakSubjectivityPeriod * 48 := slotOffset_eq cfg u
  have hot : slotOffset cfg t = 8 + t % cfg.WeakSubjectivityPeriod * 48 := slotOffset_eq cfg t
  have hzero : ∀ j, slotOffset cfg u ≤ j → j < slotOffset cfg u + 48 →
      (putEntry hd (slotOffset cfg t) entry)[j]? = some 0 := by
    intro j hj1 hj2
    rw [getElem?_putEntry, if_neg (by omega), if_neg (by omega), if_neg (by omega),
      if_pos (by omega)]
  refine ⟨_, SetTargetData_eq hv hw' t entry, ?_, ?_⟩
  · rw [GetTargetData_eq hv (wellFormed_putEntry hw' t entry), putEntry_length,
      if_neg (by omega)]
    have hsrc : slice (putEntry hd (slotOffset cfg t) entry) (slotOffset cfg u)
        (slotOffset cfg u + 8) = List.replicate 8 0 := by
      have := slice_eq_of_getElem? (l := putEntry hd (slotOffset cfg t) entry)
        (s := List.replicate 8 0) (a := slotOffset cfg u) (by
          intro i hi
          rw [List.length_replicate] at hi
          rw [hzero _ (by omega) (by omega), List.getElem?_replicate, if_pos hi])
      rwa [List.length_replicate] at this
    have hroot : slice (putEntry hd (slotOffset cfg t) entry) (slotOffset cfg u + 8)
        (slotOffset cfg u + 8 + 32) = List.replicate 32 0 := by
      have := slice_eq_of_getElem? (l := putEntry hd (slotOffset cfg t) entry)
        (s := List.replicate 32 0) (a := slotOffset cfg u + 8) (by
          intro i hi
          rw [List.length_replicate] at hi
          rw [hzero _ (by omega) (by omega), List.getElem?_replicate, if_pos hi])
      rwa [List.length_replicate] at this
    unfold entryAt
    simp only [sourceSize_eq, signingRootSize_eq]
    rw [hsrc, hroot]
    rfl
  · unfold IsEmpty
    simp only
    rw [if_neg (fun h => hffe h.symm)]

theorem C19_padding_slots_not_sentinel_witness :
    ∃ res, SetTargetData ⟨4, 2 ^ 64 - 1⟩ (List.replicate 56 0) 3
        { Source := 7, SigningRoot := List.replicate 32 1 } = .ok res ∧
      GetTargetData ⟨4, 2 ^ 64 - 1⟩ res 1
        = .ok (some { Source := 0, SigningRoot := List.replicate 32 0 }) ∧
      IsEmpty ⟨4, 2 ^ 64 - 1⟩ (some { Source := 0, SigningRoot := List.replicate 32 0 })
        = false :=
  C19_padding_slots_not_sentinel ⟨4, 2 ^ 64 - 1⟩ (by decide) (by decide)
    (List.replicate 56 0) (by decide) 1 3 { Source := 7, SigningRoot := List.replicate 32 1 }
    (by decide) (by decide)

/-! ## Buckets -/

theorem Bucket.Get_Put_self (b : Bucket) (k v : List Byte) :
    Bucket.Get (Bucket.Put b k v) k = some v := by
  induction b with
  | nil => simp [Bucket.Put, Bucket.Get]
  | cons p rest ih =>
    obtain ⟨k', v'⟩ := p
    unfold Bucket.Put
    by_cases h : k' = k
    · rw [if_pos h]; simp [Bucket.Get]
    · rw [if_neg h]; unfold Bucket.Get; rw [if_neg h]; exact ih

theorem Bucket.Get_Put_other (b : Bucket) (k v k1 : List Byte) (hne : k1 ≠ k) :
    Bucket.Get (Bucket.Put b k v) k1 = Bucket.Get b k1 := by
  induction b with
  | nil =>
    unfold Bucket.Put
    unfold Bucket.Get
    rw [if_neg (fun h => hne h.symm)]
    rfl
  | cons p rest ih =>
    obtain ⟨k', v'⟩ := p
    unfold Bucket.Put
    by_cases h : k' = k
    · rw [if_pos h]
      unfold Bucket.Get
      rw [if_neg (fun h1 => hne h1.symm), if_neg (fun h1 => hne (by rw [← h1, h]))]
    · rw [if_neg h]
      unfold Bucket.Get
      by_cases h1 : k' = k1
      · rw [if_pos h1, if_pos h1]
      · rw [if_neg h1, if_neg h1]; exact ih

theorem BytesToUint64BigEndian_Uint64ToBytesBigEndian {e : Nat} (he : e < 2 ^ 64) :
    BytesToUint64BigEndian (Uint64ToBytesBigEndian e) = e := by
  unfold BytesToUint64BigEndian Uint64ToBytesBigEndian
  have hl : (toLE 8 e).reverse.length = 8 := by rw [List.length_reverse, toLE_length]
  rw [if_neg (by omega), List.take_of_length_le (by omega), List.reverse_reverse, fromLE_toLE]
  exact Nat.mod_eq_of_lt (by norm_num at he ⊢; exact he)

theorem Uint64ToBytesBigEndian_length (e : Nat) : (Uint64ToBytesBigEndian e).length = 8 := by
  unfold Uint64ToBytesBigEndian
  rw [List.length_reverse, toLE_length]

/-- The high-water mark a bucket holds for `pk`, as both readers compute it. -/
theorem markOf_Put (b : Bucket) (pk : List Byte) {e : Nat} (he : e < 2 ^ 64) :
    markOf (Bucket.Put b pk (Uint64ToBytesBigEndian e)) pk = e := by
  unfold markOf
  rw [Bucket.Get_Put_self, Option.getD_some, Uint64ToBytesBigEndian_length,
    if_neg (by omega), BytesToUint64BigEndian_Uint64ToBytesBigEndian he]

/-- The ratchet on one bucket. -/
theorem markOf_saveMark (b : Bucket) (pk : List Byte) (e : Nat) (he : e < 2 ^ 64) :
    markOf (saveMark b pk e) pk = max (markOf b pk) e := by
  unfold saveMark
  by_cases hc : ((Bucket.Get b pk).getD []).length = 0 ∨
      (if 8 ≤ ((Bucket.Get b pk).getD []).length
        then BytesToUint64BigEndian ((Bucket.Get b pk).getD []) else 0) < e
  · rw [if_pos hc, markOf_Put b pk he]
    unfold markOf
    by_cases h8 : ((Bucket.Get b pk).getD []).length < 8
    · rw [if_pos h8]; omega
    · rw [if_neg h8]
      rw [if_pos (by omega)] at hc
      omega
  · rw [if_neg hc]
    unfold markOf
    by_cases h8 : ((Bucket.Get b pk).getD []).length < 8
    · rw [if_pos h8]
      rw [if_neg (by omega)] at hc
      omega
    · rw [if_neg h8]
      rw [if_pos (by omega)] at hc
      omega

theorem HighestSignedSourceEpoch_eq (store : Store) (pk : List Byte) :
    HighestSignedSourceEpoch store pk = markOf store.highestSignedSourceBucket pk := rfl

theorem HighestSignedTargetEpoch_eq (store : Store) (pk : List Byte) :
    HighestSignedTargetEpoch store pk = markOf store.highestSignedTargetBucket pk := rfl

theorem SaveHighestSignedSourceEpoch_eq (store : Store) (pk : List Byte) (e : Nat) :
    SaveHighestSignedSourceEpoch store pk e
      = { store with
          highestSignedSourceBucket := saveMark store.highestSignedSourceBucket pk e } := by
  unfold SaveHighestSignedSourceEpoch saveMark
  simp only
  by_cases hc : ((Bucket.Get store.highestSignedSourceBucket pk).getD []).length = 0 ∨
      (if 8 ≤ ((Bucket.Get store.highestSignedSourceBucket pk).getD []).length
        then BytesToUint64BigEndian ((Bucket.Get store.highestSignedSourceBucket pk).getD [])
        else 0) < e
  · rw [if_pos hc, if_pos hc]
  · rw [if_neg hc, if_neg hc]

theorem SaveHighestSignedTargetEpoch_eq (store : Store) (pk : List Byte) (e : Nat) :
    SaveHighestSignedTargetEpoch store pk e
      = { store with
          highestSignedTargetBucket := saveMark store.highestSignedTargetBucket pk e } := by
  unfold SaveHighestSignedTargetEpoch saveMark
  simp only
  by_cases hc : ((Bucket.Get store.highestSignedTargetBucket pk).getD []).length = 0 ∨
      (if 8 ≤ ((Bucket.Get store.highestSignedTargetBucket pk).getD []).length
        then BytesToUint64BigEndian ((Bucket.Get store.highestSignedTargetBucket pk).getD [])
        else 0) < e
  · rw [if_pos hc, if_pos hc]
  · rw [if_neg hc, if_neg hc]

theorem markOf_of_absent {b : Bucket} {pk : List Byte} (h : Bucket.Get b pk = none) :
    markOf b pk = 0 := by
  unfold markOf
  rw [h]
  rfl

theorem saveMark_of_absent {b : Bucket} {pk : List Byte} (h : Bucket.Get b pk = none)
    (e : Nat) : saveMark b pk e = Bucket.Put b pk (Uint64ToBytesBigEndian e) := by
  unfold saveMark
  rw [h]
  rfl

/-! ## Claims on the high-water marks -/

/-- C15. High-water marks are a ratchet: after `SaveHighestSignedSourceEpoch(pk, e)`
the reader `HighestSignedSourceEpoch(pk)` returns `max(v, e)`, where `v` is what it
returned before the call, 0 when `pk` has no record; the same holds for
`SaveHighestSignedTargetEpoch` and `HighestSignedTargetEpoch`. Saving 5 and then 3
for a key without a record leaves 5. -/
theorem C15_high_water_marks_ratchet (store : Store) (pk : List Byte) (e : Nat)
    (he : e < 2 ^ 64) :
    HighestSignedSourceEpoch (SaveHighestSignedSourceEpoch store pk e) pk
        = max (HighestSignedSourceEpoch store pk) e ∧
      HighestSignedTargetEpoch (SaveHighestSignedTargetEpoch store pk e) pk
        = max (HighestSignedTargetEpoch store pk) e ∧
      (Bucket.Get store.highestSignedSourceBucket pk = none →
        HighestSignedSourceEpoch store pk = 0 ∧
        HighestSignedSourceEpoch
          (SaveHighestSignedSourceEpoch (SaveHighestSignedSourceEpoch store pk 5) pk 3) pk = 5) ∧
      (Bucket.Get store.highestSignedTargetBucket pk = none →
        HighestSignedTargetEpoch store pk = 0 ∧
        HighestSignedTargetEpoch
          (SaveHighestSignedTargetEpoch (SaveHighestSignedTargetEpoch store pk 5) pk 3) pk
            = 5) := by
  refine ⟨?_, ?_, ?_, ?_⟩
  · rw [SaveHighestSignedSourceEpoch_eq, HighestSignedSourceEpoch_eq,
      HighestSignedSourceEpoch_eq]
    exact markOf_saveMark _ pk e he
  · rw [SaveHighestSignedTargetEpoch_eq, HighestSignedTargetEpoch_eq,
      HighestSignedTargetEpoch_eq]
    exact markOf_saveMark _ pk e he
  · intro hnone
    refine ⟨by rw [HighestSignedSourceEpoch_eq, markOf_of_absent hnone], ?_⟩
    rw [SaveHighestSignedSourceEpoch_eq, SaveHighestSignedSourceEpoch_eq,
      HighestSignedSourceEpoch_eq]
    simp only
    rw [markOf_saveMark _ pk 3 (by norm_num), markOf_saveMark _ pk 5 (by norm_num),
      markOf_of_absent hnone]
    rfl
  · intro hnone
    refine ⟨by rw [HighestSignedTargetEpoch_eq, markOf_of_absent hnone], ?_⟩
    rw [SaveHighestSignedTargetEpoch_eq, SaveHighestSignedTargetEpoch_eq,
      HighestSignedTargetEpoch_eq]
    simp only
    rw [markOf_saveMark _ pk 3 (by norm_num), markOf_saveMark _ pk 5 (by norm_num),
      markOf_of_absent hnone]
    rfl

theorem C15_high_water_marks_ratchet_witness :
    HighestSignedSourceEpoch
        (SaveHighestSignedSourceEpoch ⟨none, [], [], []⟩ (List.replicate 48 7) 9)
        (List.replicate 48 7)
        = max (HighestSignedSourceEpoch ⟨none, [], [], []⟩ (List.replicate 48 7)) 9 ∧
      HighestSignedTargetEpoch
        (SaveHighestSignedTargetEpoch ⟨none, [], [], []⟩ (List.replicate 48 7) 9)
        (List.replicate 48 7)
        = max (HighestSignedTargetEpoch ⟨none, [], [], []⟩ (List.replicate 48 7)) 9 ∧
      (HighestSignedSourceEpoch ⟨none, [], [], []⟩ (List.replicate 48 7) = 0 ∧
        HighestSignedSourceEpoch
          (SaveHighestSignedSourceEpoch
            (SaveHighestSignedSourceEpoch ⟨none, [], [], []⟩ (List.replicate 48 7) 5)
            (List.replicate 48 7) 3) (List.replicate 48 7) = 5) ∧
      (HighestSignedTargetEpoch ⟨none, [], [], []⟩ (List.replicate 48 7) = 0 ∧
        HighestSignedTargetEpoch
          (SaveHighestSignedTargetEpoch
            (SaveHighestSignedTargetEpoch ⟨none, [], [], []⟩ (List.replicate 48 7) 5)
            (List.replicate 48 7) 3) (List.replicate 48 7) = 5) :=
  match C15_high_water_marks_ratchet ⟨none, [], [], []⟩ (List.replicate 48 7) 9 (by decide) with
  | ⟨h1, h2, h3, h4⟩ => ⟨h1, h2, h3 rfl, h4 rfl⟩

/-- C16, as stated, fails: for a key without a record and the epoch 0, which is
not greater than the 0 the reader returns, `SaveHighestSignedSourceEpoch` writes a
record, and so does `SaveHighestSignedTargetEpoch`. -/
theorem C16_save_without_record_counterexample :
    HighestSignedSourceEpoch ⟨none, [], [], []⟩ (List.replicate 48 7) = 0 ∧
      ¬ (HighestSignedSourceEpoch ⟨none, [], [], []⟩ (List.replicate 48 7) < 0) ∧
      Bucket.Get (⟨none, [], [], []⟩ : Store).highestSignedSourceBucket (List.replicate 48 7)
        = none ∧
      Bucket.Get (SaveHighestSignedSourceEpoch ⟨none, [], [], []⟩ (List.replicate 48 7) 0
        ).highestSignedSourceBucket (List.replicate 48 7) = some (List.replicate 8 0) ∧
      SaveHighestSignedSourceEpoch ⟨none, [], [], []⟩ (List.replicate 48 7) 0
        ≠ ⟨none, [], [], []⟩ ∧
      SaveHighestSignedTargetEpoch ⟨none, [], [], []⟩ (List.replicate 48 7) 0
        ≠ ⟨none, [], [], []⟩ := by
  decide

/-- C16, amended. A save leaves storage untouched unless it has to write:
`SaveHighestSignedSourceEpoch(pk, e)` puts the 8 bytes of `e` under `pk` in the
highest-signed-source bucket if `pk` has no record there (or an empty one) or `e`
is strictly greater than the value `HighestSignedSourceEpoch(pk)` returned before
the call; otherwise the whole store, and with it the bucket and the keys that have
a record, is identical before and after the call. The same holds for
`SaveHighestSignedTargetEpoch`. -/
theorem C16_save_writes_only_when_needed (store : Store) (pk : List Byte) (e : Nat) :
    ((((Bucket.Get store.highestSignedSourceBucket pk).getD []).length = 0 ∨
          HighestSignedSourceEpoch store pk < e) →
        SaveHighestSignedSourceEpoch store pk e
          = { store with
              highestSignedSourceBucket :=
                Bucket.Put store.highestSignedSourceBucket pk (Uint64ToBytesBigEndian e) }) ∧
      (¬ (((Bucket.Get store.highestSignedSourceBucket pk).getD []).length = 0 ∨
          HighestSignedSourceEpoch store pk < e) →
        SaveHighestSignedSourceEpoch store pk e = store) ∧
      ((((Bucket.Get store.highestSignedTargetBucket pk).getD []).length = 0 ∨
          HighestSignedTargetEpoch store pk < e) →
        SaveHighestSignedTargetEpoch store pk e
          = { store with
              highestSignedTargetBucket :=
                Bucket.Put store.highestSignedTargetBucket pk (Uint64ToBytesBigEndian e) }) ∧
      (¬ (((Bucket.Get store.highestSignedTargetBucket pk).getD []).length = 0 ∨
          HighestSignedTargetEpoch store pk < e) →
        SaveHighestSignedTargetEpoch store pk e = store) := by
  have key : ∀ b : Bucket,
      ((((Bucket.Get b pk).getD []).length = 0 ∨ markOf b pk < e) →
        saveMark b pk e = Bucket.Put b pk (Uint64ToBytesBigEndian e)) ∧
      (¬ (((Bucket.Get b pk).getD []).length = 0 ∨ markOf b pk < e) →
        saveMark b pk e = b) := by
    intro b
    have hm : markOf b pk = (if 8 ≤ ((Bucket.Get b pk).getD []).length
        then BytesToUint64BigEndian ((Bucket.Get b pk).getD []) else 0) := by
      unfold markOf
      by_cases h8 : ((Bucket.Get b pk).getD []).length < 8
      · rw [if_pos h8, if_neg (by omega)]
      · rw [if_neg h8, if_pos (by omega)]
    unfold saveMark
    rw [hm]
    exact ⟨fun h => if_pos h, fun h => if_neg h⟩
  rw [SaveHighestSignedSourceEpoch_eq, SaveHighestSignedTargetEpoch_eq,
    HighestSignedSourceEpoch_eq, HighestSignedTargetEpoch_eq]
  refine ⟨?_, ?_, ?_, ?_⟩
  · intro h; rw [(key _).1 h]
  · intro h; rw [(key _).2 h]
  · intro h; rw [(key _).1 h]
  · intro h; rw [(key _).2 h]

theorem C16_save_writes_only_when_needed_witness :
    SaveHighestSignedSourceEpoch
        ⟨none, [], [(List.replicate 48 7, Uint64ToBytesBigEndian 5)], []⟩
        (List.replicate 48 7) 3
      = ⟨none, [], [(List.replicate 48 7, Uint64ToBytesBigEndian 5)], []⟩ ∧
    SaveHighestSignedSourceEpoch
        ⟨none, [], [(List.replicate 48 7, Uint64ToBytesBigEndian 5)], []⟩
        (List.replicate 48 7) 6
      = ⟨none, [], Bucket.Put [(List.replicate 48 7, Uint64ToBytesBigEndian 5)]
          (List.replicate 48 7) (Uint64ToBytesBigEndian 6), []⟩ :=
  ⟨(C16_save_writes_only_when_needed
      ⟨none, [], [(List.replicate 48 7, Uint64ToBytesBigEndian 5)], []⟩
      (List.replicate 48 7) 3).2.1 (by decide),
    (C16_save_writes_only_when_needed
      ⟨none, [], [(List.replicate 48 7, Uint64ToBytesBigEndian 5)], []⟩
      (List.replicate 48 7) 6).1 (by decide)⟩

/-! ## Several `Put`s -/

theorem putAll_cons (b : Bucket) (p : List Byte × List Byte) (l : Bucket) :
    putAll b (p :: l) = putAll (Bucket.Put b p.1 p.2) l := rfl

theorem Get_putAll_of_not_mem : ∀ (l b : Bucket) (k : List Byte),
    k ∉ l.map Prod.fst → Bucket.Get (putAll b l) k = Bucket.Get b k := by
  intro l
  induction l with
  | nil => intro b k _; rfl
  | cons p rest ih =>
    intro b k hk
    rw [List.map_cons, List.mem_cons, not_or] at hk
    rw [putAll_cons, ih _ k hk.2, Bucket.Get_Put_other _ _ _ _ hk.1]

theorem Get_putAll_of_mem : ∀ (l b : Bucket) (k v : List Byte),
    (l.map Prod.fst).Nodup → (k, v) ∈ l → Bucket.Get (putAll b l) k = some v := by
  intro l
  induction l with
  | nil => intro b k v _ h; cases h
  | cons p rest ih =>
    intro b k v hnd hmem
    rw [List.map_cons, List.nodup_cons] at hnd
    rw [putAll_cons]
    rcases List.mem_cons.1 hmem with h | h
    · subst h
      rw [Get_putAll_of_not_mem rest _ k hnd.1, Bucket.Get_Put_self]
    · exact ih _ k v hnd.2 h

theorem Put_of_not_mem : ∀ (b : Bucket) (k v : List Byte),
    k ∉ b.map Prod.fst → Bucket.Put b k v = b ++ [(k, v)] := by
  intro b
  induction b with
  | nil => intro k v _; rfl
  | cons p rest ih =>
    intro k v hk
    obtain ⟨k', v'⟩ := p
    rw [List.map_cons, List.mem_cons, not_or] at hk
    unfold Bucket.Put
    rw [if_neg (fun h => hk.1 h.symm), ih k v hk.2]
    rfl

theorem putAll_eq_append : ∀ (l b : Bucket), (l.map Prod.fst).Nodup →
    (∀ k, k ∈ l.map Prod.fst → k ∉ b.map Prod.fst) → putAll b l = b ++ l := by
  intro l
  induction l with
  | nil => intro b _ _; simp [putAll]
  | cons p rest ih =>
    intro b hnd hdis
    rw [List.map_cons, List.nodup_cons] at hnd
    rw [putAll_cons, Put_of_not_mem b p.1 p.2 (hdis p.1 (by simp)), ih _ hnd.2]
    · simp
    · intro k hk hcon
      rw [List.map_append, List.mem_append] at hcon
      rcases hcon with h | h
      · exact hdis k (by rw [List.map_cons]; exact List.mem_cons_of_mem _ hk) h
      · simp only [List.map_cons, List.map_nil, List.mem_singleton] at h
        rw [h] at hk
        exact hnd.1 hk

/-! ## The migration in closed form -/

theorem replayPure_cons (cfg : BeaconConfig) (t s : Nat) (rest : List (Nat × Nat))
    (hd : EncHistoryData) :
    replayPure cfg ((t, s) :: rest) hd
      = replayPure cfg rest (putEntry hd (slotOffset cfg t) { Source := s, SigningRoot := [1] }) :=
  rfl

theorem wellFormed_replayPure {cfg : BeaconConfig} :
    ∀ (m : List (Nat × Nat)) (hd : EncHistoryData), WellFormed hd →
      WellFormed (replayPure cfg m hd) := by
  intro m
  induction m with
  | nil => intro hd hw; exact hw
  | cons p rest ih =>
    intro hd hw
    obtain ⟨t, s⟩ := p
    rw [replayPure_cons]
    exact ih _ (wellFormed_putEntry hw t _)

theorem replayLoop_eq {cfg : BeaconConfig} (hv : cfg.valid) :
    ∀ (m : List (Nat × Nat)) (hd : EncHistoryData), WellFormed hd →
      replayLoop cfg m hd = .ok (replayPure cfg m hd) := by
  intro m
  induction m with
  | nil => intro hd _; rfl
  | cons p rest ih =>
    intro hd hw
    obtain ⟨t, s⟩ := p
    unfold replayLoop
    rw [SetTargetData_eq hv hw]
    simp only
    rw [ih _ (wellFormed_putEntry hw t _), replayPure_cons]

theorem wellFormed_migratedHistory {cfg : BeaconConfig} (hv : cfg.valid)
    (atts : AttestationHistory) : WellFormed (migratedHistory cfg atts) :=
  wellFormed_replayPure _ _ (wellFormed_writeHeader (wellFormed_New hv _) _)

theorem migrateLoop_eq {cfg : BeaconConfig} (hv : cfg.valid) :
    ∀ (attMap : List (List Byte × AttestationHistory)) (dataMap : Bucket),
      migrateLoop cfg attMap dataMap
        = .ok (putAll dataMap (attMap.map fun p => (p.1, migratedHistory cfg p.2))) := by
  intro attMap
  induction attMap with
  | nil => intro dataMap; rfl
  | cons p rest ih =>
    intro dataMap
    obtain ⟨key, atts⟩ := p
    unfold migrateLoop
    rw [SetLatestEpochWritten_eq (wellFormed_New hv _)]
    simp only
    rw [replayLoop_eq hv _ _ (wellFormed_writeHeader (wellFormed_New hv _) _)]
    simp only
    rw [ih]
    rfl

theorem Migrate_eq {cfg : BeaconConfig} (hv : cfg.valid) (env : Collaborators) (store : Store)
    {lb : Bucket} {attMap : List (List Byte × AttestationHistory)}
    (hlb : store.historicAttestationsBucket = some lb)
    (hread : env.AttestationHistoryForPubKeys store
      (env.removeDuplicateKeys (lb.map fun kv => copy (List.replicate 48 0) kv.1)) = .ok attMap) :
    MigrateV2AttestationProtection cfg env store
      = .ok (SaveAttestationHistoryForPubKeysV2 store
          (putAll [] (attMap.map fun p => (p.1, migratedHistory cfg p.2)))) := by
  unfold MigrateV2AttestationProtection
  rw [hlb]
  simp only
  rw [hread]
  simp only
  rw [migrateLoop_eq hv]

/-! ## What the replay writes -/

theorem getElem?_putEntry_one (hd : List Byte) (o s j : Nat) :
    (putEntry hd o { Source := s, SigningRoot := [1] })[j]? =
      if o ≤ j ∧ j < o + 8 then (Uint64ToBytesLittleEndian s)[j - o]?
      else if j = o + 8 then some 1
      else if j < hd.length then hd[j]?
      else if j < o + 48 then some 0 else none := by
  rw [getElem?_putEntry]
  by_cases c1 : o ≤ j ∧ j < o + 8
  · rw [if_pos c1, if_pos c1]
  · rw [if_neg c1, if_neg c1]
    by_cases c2 : j = o + 8
    · rw [if_pos (by simp; omega), if_pos c2, c2]
      simp
    · rw [if_neg (by simp; omega), if_neg c2]

/-- The entry a replayed pair leaves in its slot, the rest of the root being
zero before the write. -/
theorem entryAt_putEntry_one (hd : List Byte) (o s : Nat) (hs : s < 2 ^ 64)
    (hz : ∀ j, o + 9 ≤ j → j < o + 40 → j < hd.length → hd[j]? = some 0) :
    entryAt (putEntry hd o { Source := s, SigningRoot := [1] }) o
      = { Source := s, SigningRoot := 1 :: List.replicate 31 0 } := by
  unfold entryAt
  simp only [sourceSize_eq, signingRootSize_eq]
  rw [slice_putEntry_source, FromBytes8_Uint64ToBytesLittleEndian hs]
  have hroot : slice (putEntry hd o { Source := s, SigningRoot := [1] }) (o + 8) (o + 8 + 32)
      = 1 :: List.replicate 31 0 := by
    have := slice_eq_of_getElem? (l := putEntry hd o { Source := s, SigningRoot := [1] })
      (s := 1 :: List.replicate 31 0) (a := o + 8) (by
        intro i hi
        simp only [List.length_cons, List.length_replicate] at hi
        rw [getElem?_putEntry_one, if_neg (by omega)]
        cases i with
        | zero => rw [if_pos (by omega)]; rfl
        | succ i =>
          have hr : (1 :: List.replicate 31 (0 : Byte))[i + 1]? = some 0 := by
            rw [List.getElem?_cons_succ, List.getElem?_replicate, if_pos (by omega)]
          rw [hr, if_neg (by omega)]
          by_cases hl : o + 8 + (i + 1) < hd.length
          · rw [if_pos hl]; exact hz _ (by omega) (by omega) hl
          · rw [if_neg hl, if_pos (by omega)])
    simpa using this
  rw [hroot]

theorem replayPure_spec {cfg : BeaconConfig} :
    ∀ (m : List (Nat × Nat)) (hd : EncHistoryData),
      m.Pairwise (fun a b =>
        a.1 % cfg.WeakSubjectivityPeriod ≠ b.1 % cfg.WeakSubjectivityPeriod) →
      (∀ p ∈ m, p.2 < 2 ^ 64) →
      (∀ p ∈ m, ∀ j, slotOffset cfg p.1 + 9 ≤ j → j < slotOffset cfg p.1 + 40 →
        j < hd.length → hd[j]? = some 0) →
      hd.length ≤ (replayPure cfg m hd).length ∧
      (∀ j, j < hd.length →
        (∀ p ∈ m, ¬ (slotOffset cfg p.1 ≤ j ∧ j < slotOffset cfg p.1 + 9)) →
        (replayPure cfg m hd)[j]? = hd[j]?) ∧
      (∀ p ∈ m, slotOffset cfg p.1 + 48 ≤ (replayPure cfg m hd).length ∧
        entryAt (replayPure cfg m hd) (slotOffset cfg p.1)
          = { Source := p.2, SigningRoot := 1 :: List.replicate 31 0 }) := by
  intro m
  induction m with
  | nil =>
    intro hd _ _ _
    exact ⟨le_refl _, fun _ _ _ => rfl, fun p hp => by cases hp⟩
  | cons q rest ih =>
    intro hd hpw hsrc hz
    obtain ⟨t, s⟩ := q
    rw [List.pairwise_cons] at hpw
    rw [replayPure_cons]
    have hlen1 : (putEntry hd (slotOffset cfg t) { Source := s, SigningRoot := [1] }).length
        = max hd.length (slotOffset cfg t + 48) := putEntry_length _ _ _
    have hz1 : ∀ p ∈ rest, ∀ j, slotOffset cfg p.1 + 9 ≤ j → j < slotOffset cfg p.1 + 40 →
        j < (putEntry hd (slotOffset cfg t) { Source := s, SigningRoot := [1] }).length →
        (putEntry hd (slotOffset cfg t) { Source := s, SigningRoot := [1] })[j]? = some 0 := by
      intro p hp j hj1 hj2 hj3
      have hne : t % cfg.WeakSubjectivityPeriod ≠ p.1 % cfg.WeakSubjectivityPeriod :=
        hpw.1 p hp
      have hdis := slotOffset_disjoint hne
      rw [getElem?_putEntry_one, if_neg (by omega), if_neg (by omega)]
      by_cases hl : j < hd.length
      · rw [if_pos hl]
        exact hz p (List.mem_cons_of_mem _ hp) j hj1 hj2 hl
      · rw [if_neg hl, if_pos (by rw [hlen1] at hj3; omega)]
    obtain ⟨hL, hI1, hI2⟩ := ih _ hpw.2
      (fun p hp => hsrc p (List.mem_cons_of_mem _ hp)) hz1
    refine ⟨by rw [hlen1] at hL; omega, ?_, ?_⟩
    · intro j hj hno
      rw [hI1 j (by rw [hlen1]; omega) (fun p hp => hno p (List.mem_cons_of_mem _ hp))]
      have h0 := hno (t, s) (List.mem_cons_self _ _)
      simp only at h0
      rw [getElem?_putEntry_one, if_neg (by omega), if_neg (by omega), if_pos hj]
    · intro p hp
      rcases List.mem_cons.1 hp with h | h
      · subst h
        simp only
        refine ⟨by rw [hlen1] at hL; omega, ?_⟩
        rw [@entryAt_congr _ (putEntry hd (slotOffset cfg t) { Source := s, SigningRoot := [1] })
          _ (fun j hj1 hj2 => hI1 j (by rw [hlen1]; omega) (fun p hp => by
            have hne : t % cfg.WeakSubjectivityPeriod ≠ p.1 % cfg.WeakSubjectivityPeriod :=
              hpw.1 p hp
            have hdis := slotOffset_disjoint hne
            omega))]
        exact entryAt_putEntry_one hd _ s (hsrc (t, s) (List.mem_cons_self _ _))
          (fun j hj1 hj2 hj3 => hz (t, s) (List.mem_cons_self _ _) j hj1 hj2 hj3)
      · exact hI2 p h

theorem getElem?_New_root {cfg : BeaconConfig} (hv : cfg.valid) (L k j : Nat)
    (h1 : 8 + k * 48 + 8 ≤ j) (h2 : j < 8 + k * 48 + 40)
    (h3 : j < (NewAttestationHistoryArray cfg L).length) :
    (NewAttestationHistoryArray cfg L)[j]? = some 0 := by
  rw [NewAttestationHistoryArray_length hv] at h3
  have hk : k ≤ L % cfg.WeakSubjectivityPeriod := by
    by_contra hcon
    have : (L % cfg.WeakSubjectivityPeriod + 1) * 48 ≤ k * 48 :=
      Nat.mul_le_mul_right 48 (by omega)
    omega
  have hent := congrArg HistoryData.SigningRoot (entryAt_New hv L k hk)
  rw [emptyHistoryData_root] at hent
  unfold entryAt at hent
  simp only [sourceSize_eq, signingRootSize_eq] at hent
  have hget := getElem?_slice (NewAttestationHistoryArray cfg L) (8 + k * 48 + 8)
    (8 + k * 48 + 8 + 32) (j - (8 + k * 48 + 8))
  rw [hent, if_pos (by omega), List.getElem?_replicate, if_pos (by omega)] at hget
  have hj : 8 + k * 48 + 8 + (j - (8 + k * 48 + 8)) = j := by omega
  rw [hj] at hget
  exact hget.symm

/-- The history the migration builds for a legacy record with latest epoch
written `L` and pairs in pairwise different slots. -/
theorem migratedHistory_spec {cfg : BeaconConfig} (hv : cfg.valid) (m : List (Nat × Nat))
    (L : Nat) (hL : L < 2 ^ 64) (hs : ∀ p ∈ m, p.2 < 2 ^ 64)
    (hdist : m.Pairwise (fun a b =>
      a.1 % cfg.WeakSubjectivityPeriod ≠ b.1 % cfg.WeakSubjectivityPeriod)) :
    WellFormed (migratedHistory cfg { TargetToSource := m, LatestEpochWritten := L }) ∧
      GetLatestEpochWritten (migratedHistory cfg { TargetToSource := m, LatestEpochWritten := L })
        = .ok L ∧
      ∀ t s, (t, s) ∈ m →
        GetTargetData cfg (migratedHistory cfg { TargetToSource := m, LatestEpochWritten := L }) t
          = .ok (some { Source := s, SigningRoot := 1 :: List.replicate 31 0 }) := by
  have hwn := wellFormed_New hv L
  have h8 : 8 ≤ (NewAttestationHistoryArray cfg L).length := hwn.1
  have hwh := wellFormed_writeHeader hwn (Uint64ToBytesLittleEndian L)
  have hlh : (writeAt (NewAttestationHistoryArray cfg L) 0 8 (Uint64ToBytesLittleEndian L)).length
      = (NewAttestationHistoryArray cfg L).length := writeAt_length _ _ _ _ (by omega) h8
  have hwm := wellFormed_migratedHistory hv { TargetToSource := m, LatestEpochWritten := L }
  obtain ⟨hlen, hI1, hI2⟩ := @replayPure_spec cfg m
    (writeAt (NewAttestationHistoryArray cfg L) 0 8 (Uint64ToBytesLittleEndian L)) hdist hs
    (by
      intro p _ j hj1 hj2 hj3
      rw [hlh] at hj3
      rw [slotOffset_eq] at hj1 hj2
      rw [getElem?_writeHeader_of_ge _ _ _ h8 (by omega)]
      exact getElem?_New_root hv L (p.1 % cfg.WeakSubjectivityPeriod) j (by omega) (by omega) hj3)
  refine ⟨hwm, ?_, ?_⟩
  · rw [GetLatestEpochWritten_eq hwm]
    have hhead : slice (migratedHistory cfg { TargetToSource := m, LatestEpochWritten := L }) 0 8
        = slice (writeAt (NewAttestationHistoryArray cfg L) 0 8 (Uint64ToBytesLittleEndian L))
            0 8 := by
      apply slice_congr
      intro j _ hj
      apply hI1 j (by rw [hlh]; omega)
      intro p _ hcon
      rw [slotOffset_eq] at hcon
      omega
    rw [hhead, slice_writeHeader _ _ h8, FromBytes8_Uint64ToBytesLittleEndian hL]
  · intro t s hmem
    obtain ⟨hin, hent⟩ := hI2 (t, s) hmem
    simp only at hin hent
    rw [GetTargetData_eq hv hwm]
    unfold migratedHistory
    simp only
    rw [if_neg (by omega), hent]

/-! ## Claims on the migration -/

/-- C17. Migration preserves the legacy history: for a public key `k` whose
legacy record, in the map the legacy reader returns (a Go map, so its keys are
pairwise distinct), has latest epoch written `L` and
a target-to-source map `m` with targets pairwise distinct modulo
`WeakSubjectivityPeriod`, `MigrateV2AttestationProtection` succeeds and the history
`h` it stores for `k` in the new bucket is well-formed, has latest epoch written
`L`, and returns for every pair `(t, s)` of `m` the source `s` with the signing
root `0x01` followed by 31 zero bytes. -/
theorem C17_migration_preserves_history (cfg : BeaconConfig) (hv : cfg.valid)
    (env : Collaborators) (store : Store) (lb : Bucket)
    (attMap : List (List Byte × AttestationHistory)) (k : List Byte) (L : Nat)
    (m : List (Nat × Nat))
    (hlb : store.historicAttestationsBucket = some lb)
    (hread : env.AttestationHistoryForPubKeys store
      (env.removeDuplicateKeys (lb.map fun kv => copy (List.replicate 48 0) kv.1)) = .ok attMap)
    (hkeys : (attMap.map Prod.fst).Nodup)
    (hk : (k, { TargetToSource := m, LatestEpochWritten := L }) ∈ attMap)
    (hL : L < 2 ^ 64) (hs : ∀ p ∈ m, p.2 < 2 ^ 64)
    (hdist : m.Pairwise (fun a b =>
      a.1 % cfg.WeakSubjectivityPeriod ≠ b.1 % cfg.WeakSubjectivityPeriod)) :
    ∃ store1 h, MigrateV2AttestationProtection cfg env store = .ok store1 ∧
      Bucket.Get store1.newHistoricAttestationsBucket k = some h ∧
      WellFormed h ∧ GetLatestEpochWritten h = .ok L ∧
      ∀ t s, (t, s) ∈ m →
        GetTargetData cfg h t
          = .ok (some { Source := s, SigningRoot := 1 :: List.replicate 31 0 }) := by
  obtain ⟨hw, hlat, hread1⟩ := migratedHistory_spec hv m L hL hs hdist
  have hkeys1 : ((attMap.map fun p => (p.1, migratedHistory cfg p.2)).map Prod.fst).Nodup := by
    rw [List.map_map]
    exact hkeys
  have hmem : (k, migratedHistory cfg { TargetToSource := m, LatestEpochWritten := L })
      ∈ attMap.map fun p => (p.1, migratedHistory cfg p.2) :=
    List.mem_map.2 ⟨_, hk, rfl⟩
  refine ⟨_, _, Migrate_eq hv env store hlb hread, ?_, hw, hlat, hread1⟩
  rw [putAll_eq_append _ [] hkeys1 (fun _ _ h => by cases h), List.nil_append]
  exact Get_putAll_of_mem _ _ k _ hkeys1 hmem

theorem C17_migration_preserves_history_witness :
    ∃ store1 h,
      MigrateV2AttestationProtection ⟨4, 2 ^ 64 - 1⟩
        ⟨[9], fun keys => keys,
          fun _ keys => .ok (keys.map fun key => (key, ⟨[(1, 0), (2, 1)], 2⟩))⟩
        ⟨some [(List.replicate 48 7, [])], [], [], []⟩ = .ok store1 ∧
      Bucket.Get store1.newHistoricAttestationsBucket (List.replicate 48 7) = some h ∧
      WellFormed h ∧ GetLatestEpochWritten h = .ok 2 ∧
      GetTargetData ⟨4, 2 ^ 64 - 1⟩ h 1
        = .ok (some { Source := 0, SigningRoot := 1 :: List.replicate 31 0 }) ∧
      GetTargetData ⟨4, 2 ^ 64 - 1⟩ h 2
        = .ok (some { Source := 1, SigningRoot := 1 :: List.replicate 31 0 }) :=
  match C17_migration_preserves_history ⟨4, 2 ^ 64 - 1⟩ (by decide)
      ⟨[9], fun keys => keys,
        fun _ keys => .ok (keys.map fun key => (key, ⟨[(1, 0), (2, 1)], 2⟩))⟩
      ⟨some [(List.replicate 48 7, [])], [], [], []⟩ [(List.replicate 48 7, [])]
      [(List.replicate 48 7, ⟨[(1, 0), (2, 1)], 2⟩)] (List.replicate 48 7) 2 [(1, 0), (2, 1)]
      rfl rfl (by decide) (by decide) (by decide) (by decide) (by decide) with
  | ⟨store1, h, h1, h2, h3, h4, h5⟩ =>
    ⟨store1, h, h1, h2, h3, h4, h5 1 0 (by decide), h5 2 1 (by decide)⟩

theorem Migrate_legacy {cfg : BeaconConfig} {env : Collaborators} {store store1 : Store}
    (h : MigrateV2AttestationProtection cfg env store = .ok store1) :
    store1.historicAttestationsBucket = store.historicAttestationsBucket := by
  unfold MigrateV2AttestationProtection at h
  cases hlb : store.historicAttestationsBucket with
  | none => rw [hlb] at h; cases h
  | some lb =>
    rw [hlb] at h
    simp only at h
    cases hr : env.AttestationHistoryForPubKeys store
        (env.removeDuplicateKeys (lb.map fun kv => copy (List.replicate 48 0) kv.1)) with
    | error e => rw [hr] at h; cases h
    | ok attMap =>
      rw [hr] at h
      simp only at h
      cases hm : migrateLoop cfg attMap [] with
      | error e => rw [hm] at h; cases h
      | ok dataMap =>
        rw [hm] at h
        simp only at h
        injection h with h
        rw [← h]
        exact hlb

theorem shouldMigrateAttestations_iff (env : Collaborators) (store : Store) :
    shouldMigrateAttestations env store = true ↔
      ∃ lb, store.historicAttestationsBucket = some lb ∧ Bucket.KeyN lb ≠ 0 ∧
        Bucket.Get lb env.attestationExported = none := by
  unfold shouldMigrateAttestations
  cases hlb : store.historicAttestationsBucket with
  | none => simp
  | some lb =>
    simp only [Option.some.injEq, exists_eq_left']
    by_cases hk : Bucket.KeyN lb ≠ 0
    · rw [if_pos hk]
      cases hg : Bucket.Get lb env.attestationExported with
      | none => simp [hk]
      | some v => simp
    · rw [if_neg hk]
      simp [hk]

/-- C18. Migration is one-shot and idempotent: `shouldMigrateAttestations` returns
true exactly when the legacy bucket exists, has at least one key and holds no
exported marker. From a store in which it returns true, a call of
`MigrateV2AttestationProtectionDb` that succeeds leaves a store in which it
returns false and on which a second call returns `nil` and changes nothing, the
legacy bucket and the new bucket included; and the first call does succeed
whenever the legacy reader does. -/
theorem C18_migration_one_shot (cfg : BeaconConfig) (env : Collaborators) (store : Store) :
    (shouldMigrateAttestations env store = true ↔
        ∃ lb, store.historicAttestationsBucket = some lb ∧ Bucket.KeyN lb ≠ 0 ∧
          Bucket.Get lb env.attestationExported = none) ∧
      (∀ store1, shouldMigrateAttestations env store = true →
        MigrateV2AttestationProtectionDb cfg env store = .ok store1 →
        shouldMigrateAttestations env store1 = false ∧
          MigrateV2AttestationProtectionDb cfg env store1 = .ok store1) ∧
      (cfg.valid → shouldMigrateAttestations env store = true →
        (∀ lb, store.historicAttestationsBucket = some lb →
          ∃ attMap, env.AttestationHistoryForPubKeys store
            (env.removeDuplicateKeys (lb.map fun kv => copy (List.replicate 48 0) kv.1))
              = .ok attMap) →
        ∃ store1, MigrateV2AttestationProtectionDb cfg env store = .ok store1) := by
  refine ⟨shouldMigrateAttestations_iff env store, ?_, ?_⟩
  · intro store1 hshould hmig
    obtain ⟨lb, hlb, _, _⟩ := (shouldMigrateAttestations_iff env store).1 hshould
    have hfalse : shouldMigrateAttestations env store1 = false := by
      unfold MigrateV2AttestationProtectionDb at hmig
      simp only [hshould] at hmig
      rw [if_neg (by simp)] at hmig
      cases hM : MigrateV2AttestationProtection cfg env store with
      | error e => rw [hM] at hmig; cases hmig
      | ok s1 =>
        rw [hM] at hmig
        simp only at hmig
        rw [Migrate_legacy hM, hlb] at hmig
        simp only at hmig
        injection hmig with hmig
        rw [← hmig]
        unfold shouldMigrateAttestations
        simp only
        rw [Bucket.Get_Put_self]
        split <;> rfl
    refine ⟨hfalse, ?_⟩
    unfold MigrateV2AttestationProtectionDb
    simp only [hfalse]
    rfl
  · intro hv hshould hreader
    obtain ⟨lb, hlb, _, _⟩ := (shouldMigrateAttestations_iff env store).1 hshould
    obtain ⟨attMap, hread⟩ := hreader lb hlb
    have hM := Migrate_eq hv env store hlb hread
    unfold MigrateV2AttestationProtectionDb
    simp only [hshould]
    rw [if_neg (by simp), hM]
    simp only
    have hleg : (SaveAttestationHistoryForPubKeysV2 store
        (putAll [] (attMap.map fun p => (p.1, migratedHistory cfg p.2)))
        ).historicAttestationsBucket = some lb := hlb
    rw [hleg]
    exact ⟨_, rfl⟩

theorem C18_migration_one_shot_witness :
    ∃ store1,
      shouldMigrateAttestations
        ⟨[9], fun keys => keys,
          fun _ keys => .ok (keys.map fun key => (key, ⟨[(1, 0), (2, 1)], 2⟩))⟩
        ⟨some [(List.replicate 48 7, [])], [], [], []⟩ = true ∧
      MigrateV2AttestationProtectionDb ⟨4, 2 ^ 64 - 1⟩
        ⟨[9], fun keys => keys,
          fun _ keys => .ok (keys.map fun key => (key, ⟨[(1, 0), (2, 1)], 2⟩))⟩
        ⟨some [(List.replicate 48 7, [])], [], [], []⟩ = .ok store1 ∧
      shouldMigrateAttestations
        ⟨[9], fun keys => keys,
          fun _ keys => .ok (keys.map fun key => (key, ⟨[(1, 0), (2, 1)], 2⟩))⟩ store1
        = false ∧
      MigrateV2AttestationProtectionDb ⟨4, 2 ^ 64 - 1⟩
        ⟨[9], fun keys => keys,
          fun _ keys => .ok (keys.map fun key => (key, ⟨[(1, 0), (2, 1)], 2⟩))⟩ store1
        = .ok store1 :=
  match (C18_migration_one_shot ⟨4, 2 ^ 64 - 1⟩
      ⟨[9], fun keys => keys,
        fun _ keys => .ok (keys.map fun key => (key, ⟨[(1, 0), (2, 1)], 2⟩))⟩
      ⟨some [(List.replicate 48 7, [])], [], [], []⟩).2.2 (by decide) rfl
      (fun _ _ => ⟨_, rfl⟩) with
  | ⟨store1, hmig⟩ =>
    ⟨store1, rfl, hmig,
      (C18_migration_one_shot ⟨4, 2 ^ 64 - 1⟩
        ⟨[9], fun keys => keys,
          fun _ keys => .ok (keys.map fun key => (key, ⟨[(1, 0), (2, 1)], 2⟩))⟩
        ⟨some [(List.replicate 48 7, [])], [], [], []⟩).2.1 store1 rfl hmig⟩

end Kv

namespace Interchangeformat

open Kv

/-! ## The export loop -/

theorem rootToHex_of_length {root : List Byte} (h : root.length = 32) :
    rootToHex root = .ok ("0x" ++ hexOf root) := by
  unfold rootToHex
  rw [if_neg (by rw [h]; simp)]

theorem signedBlocksLoop_spec (validatorDB : Database) (pubKey : List Byte) (hi : Nat)
    (root : Nat → List Byte) :
    ∀ (fuel i : Nat) (acc : List SignedBlock),
      (∀ j, i ≤ j → j < hi →
        validatorDB.ProposalHistoryForSlot pubKey j = .ok (root j) ∧ (root j).length = 32) →
      hi ≤ i + fuel →
      signedBlocksLoop validatorDB pubKey hi fuel i acc
        = .ok (acc ++ (List.range' i (hi - i)).map fun j =>
            { Slot := toString j, SigningRoot := "0x" ++ hexOf (root j) }) := by
  intro fuel
  induction fuel with
  | zero =>
    intro i acc _ hle
    have : hi - i = 0 := by omega
    rw [this]
    simp [signedBlocksLoop]
  | succ fuel ih =>
    intro i acc hroots hle
    unfold signedBlocksLoop
    by_cases hc : i < hi
    · obtain ⟨hget, hlen⟩ := hroots i (le_refl _) hc
      rw [if_pos hc, hget]
      simp only
      rw [rootToHex_of_length hlen]
      simp only
      rw [ih (i + 1) _ (fun j h1 h2 => hroots j (by omega) h2) (by omega)]
      have hsub : hi - i = (hi - (i + 1)) + 1 := by omega
      rw [hsub, List.range'_succ, List.map_cons, List.append_assoc]
      rfl
    · rw [if_neg hc]
      have : hi - i = 0 := by omega
      rw [this]
      simp

/-- C20. Export covers a half-open slot range: for a public key whose lowest and
highest signed proposal slots are `lo` and `hi` and whose per-slot lookups succeed
with 32-byte roots, `getSignedBlocksByPubKey` returns exactly one `SignedBlock` per
slot `i` with `lo <= i < hi`, in ascending slot order, each carrying the decimal
slot and the `0x`-prefixed hex of the signing root of that slot; the list has
`hi - lo` entries and the slot `hi` itself is not among the exported slots. -/
theorem C20_export_half_open_range (validatorDB : Database) (pubKey : List Byte)
    (lo hi : Nat) (root : Nat → List Byte)
    (hlo : validatorDB.LowestSignedProposal pubKey = .ok lo)
    (hhi : validatorDB.HighestSignedProposal pubKey = .ok hi)
    (hroots : ∀ j, lo ≤ j → j < hi →
      validatorDB.ProposalHistoryForSlot pubKey j = .ok (root j) ∧ (root j).length = 32) :
    ∃ blocks, getSignedBlocksByPubKey validatorDB pubKey = .ok blocks ∧
      blocks = (List.range' lo (hi - lo)).map (fun j =>
        { Slot := toString j, SigningRoot := "0x" ++ hexOf (root j) }) ∧
      blocks.length = hi - lo ∧
      (∀ j, j ∈ List.range' lo (hi - lo) ↔ lo ≤ j ∧ j < hi) ∧
      hi ∉ List.range' lo (hi - lo) ∧
      (hi ≤ lo → blocks = []) := by
  have hrun : getSignedBlocksByPubKey validatorDB pubKey
      = .ok ((List.range' lo (hi - lo)).map (fun j =>
        { Slot := toString j, SigningRoot := "0x" ++ hexOf (root j) })) := by
    unfold getSignedBlocksByPubKey
    rw [hlo]
    simp only
    rw [hhi]
    simp only
    rw [signedBlocksLoop_spec validatorDB pubKey hi root (hi - lo) lo [] hroots (by omega),
      List.nil_append]
  have hmem : ∀ j, j ∈ List.range' lo (hi - lo) ↔ lo ≤ j ∧ j < hi := by
    intro j
    rw [List.mem_range'_1]
    omega
  refine ⟨_, hrun, rfl, by simp, hmem, ?_, ?_⟩
  · intro hcon
    have := (hmem hi).1 hcon
    omega
  · intro hle
    have : hi - lo = 0 := by omega
    rw [this]
    rfl

theorem C20_export_half_open_range_witness :
    (∃ blocks,
      getSignedBlocksByPubKey
        ⟨fun _ => .ok 3, fun _ => .ok 5, fun _ slot => .ok (List.replicate 32 ⟨slot % 256,
          Nat.mod_lt _ (by decide)⟩)⟩ (List.replicate 48 7) = .ok blocks ∧
      blocks = (List.range' 3 (5 - 3)).map (fun j =>
        { Slot := toString j,
          SigningRoot := "0x" ++ hexOf (List.replicate 32 ⟨j % 256,
            Nat.mod_lt _ (by decide)⟩) }) ∧
      blocks.length = 5 - 3 ∧ 5 ∉ List.range' 3 (5 - 3)) ∧
    ∃ blocks,
      getSignedBlocksByPubKey
        ⟨fun _ => .ok 5, fun _ => .ok 3, fun _ slot => .ok (List.replicate 32 ⟨slot % 256,
          Nat.mod_lt _ (by decide)⟩)⟩ (List.replicate 48 7) = .ok blocks ∧
      blocks = [] :=
  ⟨match C20_export_half_open_range
      ⟨fun _ => .ok 3, fun _ => .ok 5, fun _ slot => .ok (List.replicate 32 ⟨slot % 256,
        Nat.mod_lt _ (by decide)⟩)⟩ (List.replicate 48 7) 3 5
      (fun j => List.replicate 32 ⟨j % 256, Nat.mod_lt _ (by decide)⟩) rfl rfl
      (fun _ _ _ => ⟨rfl, by simp⟩) with
    | ⟨blocks, h1, h2, h3, _, h5, _⟩ => ⟨blocks, h1, h2, h3, h5⟩,
   match C20_export_half_open_range
      ⟨fun _ => .ok 5, fun _ => .ok 3, fun _ slot => .ok (List.replicate 32 ⟨slot % 256,
        Nat.mod_lt _ (by decide)⟩)⟩ (List.replicate 48 7) 5 3
      (fun j => List.replicate 32 ⟨j % 256, Nat.mod_lt _ (by decide)⟩) rfl rfl
      (fun _ _ _ => ⟨rfl, by simp⟩) with
    | ⟨blocks, h1, _, _, _, _, h6⟩ => ⟨blocks, h1, h6 (by decide)⟩⟩

end Interchangeformat
